import Mathlib

/-!
Shallow embedding of the CSR study-manager's relational store and of the
coverage / ranking / upsert operations of `database_manager.py` and
`main.py`.  Tables are lists of rows; SQL queries become list filters,
joins become nested quantifiers, and row updates become maps over the
row lists.  Real-valued columns (comprehension percentages) are modelled
as rationals.
-/

namespace CSR

/-- Row of the `dictionary_forms` table. -/
structure DictForm where
  dict_form_id : Nat
  base_form : String
  reading : String
  pos : String
  frequency : Nat
  known : Bool
  ranking : Option Nat
deriving DecidableEq, Repr

/-- Row of the `surface_forms` table (`pos` is nullable in the schema). -/
structure SurfaceForm where
  surface_form_id : Nat
  dict_form_id : Nat
  surface_form : String
  reading : String
  pos : Option String
  frequency : Nat
  kanji_parsed : Bool
deriving DecidableEq, Repr

/-- Row of the `surface_form_sentences` link table. -/
structure SFSLink where
  surface_form_id : Nat
  sentence_id : Nat
deriving DecidableEq, Repr

/-- Row of the `sentences` table. -/
structure SentenceRow where
  sentence_id : Nat
  text_id : Nat
  content : String
  unknown_dictionary_form_count : Nat
deriving DecidableEq, Repr

/-- Row of the `texts` table. -/
structure TextRow where
  text_id : Nat
  source : String
  ttype : String
  comprehension_percentage : ℚ
  studying : Bool
deriving DecidableEq, Repr

/-- Row of the `cards` table (only the columns the verified operations read). -/
structure CardRow where
  card_id : Nat
  deck_id : Nat
  sentence_id : Option Nat
  unobtainable : Bool
  gated : Bool
deriving DecidableEq, Repr

/-- Row of the `decks` table. -/
structure DeckRow where
  deck_id : Nat
  name : String
deriving DecidableEq, Repr

/-- Row of the `media` table. -/
structure MediaRow where
  media_id : Nat
  file_path : String
  mtype : String
deriving DecidableEq, Repr

/-- Row of the `subtitles` table. -/
structure SubtitleRow where
  media_id : Nat
  subtitle_file : String
deriving DecidableEq, Repr

/-- Row of the `sources` table. -/
structure SourceRow where
  source_id : Nat
  folder_path : String
deriving DecidableEq, Repr

/-- Row of the `compound_forms` table. -/
structure CompoundRow where
  compound_id : Nat
  surface_form_id : Nat
  compound_text : String
  frequency : Nat
  known : Bool
deriving DecidableEq, Repr

/-- Row of the `kanji_entries` table. -/
structure KanjiRow where
  kanji_id : Nat
  compound_id : Nat
  kanji_char : Char
  frequency : Nat
  known : Bool
deriving DecidableEq, Repr

/-- Row of the `kanji_linkage` table. -/
structure KanjiLinkRow where
  kanji_id : Nat
  surface_form_id : Nat
  sentence_id : Nat
  card_id : Option Nat
deriving DecidableEq, Repr

/-- The whole store: one list of rows per table. -/
structure DB where
  dictionary_forms : List DictForm
  surface_forms : List SurfaceForm
  surface_form_sentences : List SFSLink
  sentences : List SentenceRow
  texts : List TextRow
  cards : List CardRow
  decks : List DeckRow
  media : List MediaRow
  subtitles : List SubtitleRow
  sources : List SourceRow
  compound_forms : List CompoundRow
  kanji_entries : List KanjiRow
  kanji_linkage : List KanjiLinkRow
deriving DecidableEq, Repr

/-- The join of `update_text_comprehension`'s SELECT: dictionary-form rows
reachable from a sentence of the given text through a surface form and a
sentence link.  Because `dict_form_id` is the table's primary key, the
filtered row list realises SQL's `SELECT DISTINCT df.dict_form_id, df.known`. -/
def textLinkedForms (db : DB) (tid : Nat) : List DictForm :=
  db.dictionary_forms.filter (fun df =>
    db.surface_forms.any (fun sf =>
      decide (sf.dict_form_id = df.dict_form_id) &&
      db.surface_form_sentences.any (fun l =>
        decide (l.surface_form_id = sf.surface_form_id) &&
        db.sentences.any (fun s =>
          decide (s.sentence_id = l.sentence_id) && decide (s.text_id = tid)))))

/-- `DatabaseManager.update_text_comprehension`: recompute the percentage of
known linked lemmas for one text and store it in the `texts` row. -/
def update_text_comprehension (db : DB) (tid : Nat) : DB :=
  let forms := textLinkedForms db tid
  let comprehension : ℚ :=
    if forms = [] then 100
    else (((forms.filter (fun f => f.known)).length : ℚ) / (forms.length : ℚ)) * 100
  { db with
    texts := db.texts.map (fun t =>
      if t.text_id = tid then { t with comprehension_percentage := comprehension } else t) }

/-- `DatabaseManager.get_forms_covered_by_text`: the distinct dictionary-form
ids linked (via surface forms and sentence links) to any sentence of the text. -/
def get_forms_covered_by_text (db : DB) (tid : Nat) : Finset Nat :=
  ((textLinkedForms db tid).map (fun df => df.dict_form_id)).toFinset

/-- The `limit is None or len(chosen_texts) < limit` guard of the greedy loop. -/
def limit_allows (limit : Option Nat) (chosen : List Nat) : Bool :=
  match limit with
  | none => true
  | some l => chosen.length < l

/-- Inner `for t_id in text_ids` loop of `greedy_set_cover`: carry the running
`(best_text, best_cover_count)` pair, starting from `(None, 0)`, and replace it
whenever a not-yet-chosen text covers strictly more uncovered forms. -/
def selectBest (cov : Nat → Finset Nat) (uncovered : Finset Nat) (chosen : List Nat) :
    List Nat → Option Nat × Nat → Option Nat × Nat
  | [], acc => acc
  | t :: ts, acc =>
    if t ∈ chosen then selectBest cov uncovered chosen ts acc
    else if acc.2 < (cov t ∩ uncovered).card then
      selectBest cov uncovered chosen ts (some t, (cov t ∩ uncovered).card)
    else selectBest cov uncovered chosen ts acc

/-- Outer `while` loop of `greedy_set_cover`.  The loop chooses a fresh text of
`text_ids` at every iteration, so `text_ids.length + 1` steps of fuel always
reach a fixed point (see `greedyLoop_fuel_stable`). -/
def greedyLoop (cov : Nat → Finset Nat) (text_ids : List Nat) (limit : Option Nat) :
    Nat → List Nat → Finset Nat → List Nat
  | 0, chosen, _ => chosen
  | fuel + 1, chosen, uncovered =>
    if uncovered = ∅ then chosen
    else if limit_allows limit chosen then
      match (selectBest cov uncovered chosen text_ids (none, 0)).1 with
      | none => chosen
      | some t => greedyLoop cov text_ids limit fuel (chosen ++ [t]) (uncovered \ cov t)
    else chosen

/-- `DatabaseManager.greedy_set_cover`: greedy maximum-coverage choice of texts. -/
def greedy_set_cover (db : DB) (forms : List Nat) (text_ids : List Nat)
    (limit : Option Nat) : List Nat :=
  greedyLoop (fun t => get_forms_covered_by_text db t) text_ids limit
    (text_ids.length + 1) [] forms.toFinset

/-- Modelled from the spec: the first element of the list attaining the largest
value of `f` ("ties broken by iteration order, first-encountered wins"). -/
def firstLargest (f : Nat → Nat) : List Nat → Option Nat
  | [] => none
  | t :: ts =>
    match firstLargest f ts with
    | none => some t
    | some u => if f t < f u then some u else some t

/-- Modelled from the spec: "pick the not-yet-chosen text whose
covered∩uncovered set is largest (first-encountered wins)"; no pick when no
remaining text covers any uncovered form. -/
def specPick (cov : Nat → Finset Nat) (uncovered : Finset Nat) (chosen : List Nat)
    (text_ids : List Nat) : Option Nat :=
  match firstLargest (fun t => (cov t ∩ uncovered).card)
      (text_ids.filter (fun t => decide (t ∉ chosen))) with
  | none => none
  | some u => if (cov u ∩ uncovered).card = 0 then none else some u

/-- Modelled from the spec: the greedy loop — "remove its covered lemmas from
the uncovered set; stop when uncovered is empty, no text improves coverage, or
`limit` texts have been chosen". -/
def specLoop (cov : Nat → Finset Nat) (text_ids : List Nat) (limit : Option Nat) :
    Nat → List Nat → Finset Nat → List Nat
  | 0, chosen, _ => chosen
  | fuel + 1, chosen, uncovered =>
    if uncovered = ∅ then chosen
    else if limit_allows limit chosen then
      match specPick cov uncovered chosen text_ids with
      | none => chosen
      | some t => specLoop cov text_ids limit fuel (chosen ++ [t]) (uncovered \ cov t)
    else chosen

/-- Modelled from the spec: `greedySetCover(targetLemmas, candidateTexts, limit)`. -/
def greedySetCoverSpec (db : DB) (forms : List Nat) (text_ids : List Nat)
    (limit : Option Nat) : List Nat :=
  specLoop (fun t => get_forms_covered_by_text db t) text_ids limit
    (text_ids.length + 1) [] forms.toFinset

/-- Union of the covered-form sets of a list of texts. -/
def covUnion (db : DB) (l : List Nat) : Finset Nat :=
  l.foldr (fun t a => get_forms_covered_by_text db t ∪ a) ∅

/-- The running-maximum loop of the source computes, for any accumulator, the
first-encountered maximum of the unchosen candidates (when it beats the
accumulator). -/
lemma selectBest_eq (cov : Nat → Finset Nat) (uncovered : Finset Nat) (chosen : List Nat)
    (l : List Nat) (acc : Option Nat × Nat) :
    selectBest cov uncovered chosen l acc =
      match firstLargest (fun t => (cov t ∩ uncovered).card)
          (l.filter (fun t => decide (t ∉ chosen))) with
      | none => acc
      | some u =>
        if acc.2 < (cov u ∩ uncovered).card then (some u, (cov u ∩ uncovered).card)
        else acc := by
  induction l generalizing acc with
  | nil => simp [selectBest, firstLargest]
  | cons t ts ih =>
    by_cases hmem : t ∈ chosen
    · have hfil : (t :: ts).filter (fun t => decide (t ∉ chosen))
          = ts.filter (fun t => decide (t ∉ chosen)) := by
        simp [List.filter_cons, hmem]
      rw [selectBest, if_pos hmem, ih, hfil]
    · have hfil : (t :: ts).filter (fun t => decide (t ∉ chosen))
          = t :: ts.filter (fun t => decide (t ∉ chosen)) := by
        simp [List.filter_cons, hmem]
      rw [selectBest, if_neg hmem, hfil]
      cases hfl : firstLargest (fun t => (cov t ∩ uncovered).card)
          (ts.filter (fun t => decide (t ∉ chosen))) with
      | none =>
        simp only [firstLargest, hfl, ih]
      | some u =>
        simp only [firstLargest, hfl, ih]
        by_cases h1 : (cov t ∩ uncovered).card < (cov u ∩ uncovered).card
        · by_cases h2 : acc.2 < (cov t ∩ uncovered).card
          · have h3 : acc.2 < (cov u ∩ uncovered).card := lt_trans h2 h1
            simp [h1, h2, h3]
          · simp [h1, h2]
        · by_cases h2 : acc.2 < (cov t ∩ uncovered).card
          · simp [h1, h2]
          · have h3 : ¬ acc.2 < (cov u ∩ uncovered).card := by omega
            simp [h1, h2, h3]

/-- Started from `(None, 0)`, the source's selection loop returns exactly the
spec's pick. -/
lemma selectBest_none (cov : Nat → Finset Nat) (uncovered : Finset Nat)
    (chosen : List Nat) (l : List Nat) :
    (selectBest cov uncovered chosen l (none, 0)).1 = specPick cov uncovered chosen l := by
  rw [selectBest_eq, specPick]
  cases hfl : firstLargest (fun t => (cov t ∩ uncovered).card)
      (l.filter (fun t => decide (t ∉ chosen))) with
  | none => rfl
  | some u =>
    by_cases h : (cov u ∩ uncovered).card = 0
    · simp [h]
    · simp [h, Nat.pos_of_ne_zero h]

/-- The source loop and the spec-modelled loop coincide step by step. -/
lemma greedyLoop_eq_specLoop (cov : Nat → Finset Nat) (tids : List Nat)
    (limit : Option Nat) :
    ∀ fuel chosen uncovered,
      greedyLoop cov tids limit fuel chosen uncovered
        = specLoop cov tids limit fuel chosen uncovered := by
  intro fuel
  induction fuel with
  | zero => intro c u; rfl
  | succ n ih =>
    intro c u
    rw [greedyLoop, specLoop, selectBest_none]
    by_cases hu : u = ∅
    · simp [hu]
    · by_cases hl : limit_allows limit c = true
      · simp only [hu, hl, if_false, if_true]
        cases specPick cov u c tids with
        | none => rfl
        | some t => exact ih _ _
      · simp [hu, hl]

/-- The first-largest element is an element of the list. -/
lemma firstLargest_mem (f : Nat → Nat) :
    ∀ (l : List Nat) (t : Nat), firstLargest f l = some t → t ∈ l := by
  intro l
  induction l with
  | nil => intro t h; simp [firstLargest] at h
  | cons a as ih =>
    intro t h
    rw [firstLargest] at h
    cases hfl : firstLargest f as with
    | none => rw [hfl] at h; simp at h; simp [h]
    | some u =>
      rw [hfl] at h
      by_cases hc : f a < f u
      · simp [hc] at h
        subst h
        exact List.mem_cons_of_mem a (ih u hfl)
      · simp [hc] at h
        simp [h]

/-- A picked text is a not-yet-chosen candidate. -/
lemma specPick_mem (cov : Nat → Finset Nat) (uncovered : Finset Nat)
    (chosen tids : List Nat) (t : Nat) (h : specPick cov uncovered chosen tids = some t) :
    t ∈ tids ∧ t ∉ chosen := by
  rw [specPick] at h
  cases hfl : firstLargest (fun t => (cov t ∩ uncovered).card)
      (tids.filter (fun t => decide (t ∉ chosen))) with
  | none => rw [hfl] at h; simp at h
  | some u =>
    rw [hfl] at h
    by_cases hz : (cov u ∩ uncovered).card = 0
    · simp [hz] at h
    · simp [hz] at h
      subst h
      have hu := firstLargest_mem _ _ _ hfl
      have := List.mem_filter.mp hu
      simpa using this

/-- Filtering out one further present element strictly shrinks the
not-yet-chosen candidate count. -/
lemma length_filter_notMem_append_lt (tids : List Nat) (chosen : List Nat) (t : Nat)
    (ht : t ∈ tids) (hnc : t ∉ chosen) :
    (tids.filter (fun x => decide (x ∉ chosen ++ [t]))).length
      < (tids.filter (fun x => decide (x ∉ chosen))).length := by
  induction tids with
  | nil => cases ht
  | cons a as ih =>
    rw [List.filter_cons, List.filter_cons]
    have hsub : List.Sublist (as.filter (fun x => decide (x ∉ chosen ++ [t])))
        (as.filter (fun x => decide (x ∉ chosen))) := by
      apply List.monotone_filter_right
      intro x hx
      simp only [decide_eq_true_eq] at hx ⊢
      intro hmem
      exact hx (List.mem_append_left _ hmem)
    by_cases ha : a ∈ chosen ++ [t]
    · have h1 : (decide (a ∉ chosen ++ [t])) = false := by
        simp only [decide_eq_false_iff_not, not_not]
        exact ha
      rw [h1]
      by_cases hac : a ∈ chosen
      · have h2 : (decide (a ∉ chosen)) = false := by
          simp only [decide_eq_false_iff_not, not_not]
          exact hac
        rw [h2]
        have hta : t ∈ as := by
          rcases List.mem_cons.mp ht with h | h
          · exact absurd (h ▸ hac) hnc
          · exact h
        simpa using ih hta
      · have h2 : (decide (a ∉ chosen)) = true := by simpa using hac
        rw [h2]
        have := hsub.length_le
        simp only [Bool.false_eq_true, if_false, if_true, List.length_cons]
        omega
    · have hac : a ∉ chosen := fun hc => ha (List.mem_append_left _ hc)
      have hat : a ≠ t := by
        intro he
        subst he
        exact ha (List.mem_append_right _ (List.mem_singleton_self a))
      have h1 : (decide (a ∉ chosen ++ [t])) = true := by simpa using ha
      have h2 : (decide (a ∉ chosen)) = true := by simpa using hac
      rw [h1, h2]
      have hta : t ∈ as := by
        rcases List.mem_cons.mp ht with h | h
        · exact absurd h.symm hat
        · exact h
      simpa using ih hta

/-- One fuel step beyond the not-yet-chosen candidate count never changes the
result: `text_ids.length + 1` fuel reaches the loop's natural exit. -/
lemma greedyLoop_fuel_stable (cov : Nat → Finset Nat) (tids : List Nat)
    (limit : Option Nat) :
    ∀ (fuel : Nat) (chosen : List Nat) (uncovered : Finset Nat),
      (tids.filter (fun x => decide (x ∉ chosen))).length ≤ fuel →
      greedyLoop cov tids limit (fuel + 1) chosen uncovered
        = greedyLoop cov tids limit fuel chosen uncovered := by
  intro fuel
  induction fuel with
  | zero =>
    intro chosen uncovered h
    have hfil : tids.filter (fun x => decide (x ∉ chosen)) = [] :=
      List.length_eq_zero.mp (Nat.le_zero.mp h)
    have h0 : greedyLoop cov tids limit 0 chosen uncovered = chosen := rfl
    rw [h0, greedyLoop, selectBest_none, specPick, hfil]
    simp [firstLargest]
  | succ n ih =>
    intro chosen uncovered h
    conv_lhs => rw [greedyLoop]
    conv_rhs => rw [greedyLoop]
    rw [selectBest_none]
    by_cases hu : uncovered = ∅
    · rw [if_pos hu, if_pos hu]
    · rw [if_neg hu, if_neg hu]
      by_cases hl : limit_allows limit chosen = true
      · rw [if_pos hl, if_pos hl]
        cases hp : specPick cov uncovered chosen tids with
        | none => rfl
        | some t =>
          obtain ⟨ht, hnc⟩ := specPick_mem cov uncovered chosen tids t hp
          exact ih _ _ (Nat.le_of_lt_succ
            (Nat.lt_of_lt_of_le (length_filter_notMem_append_lt tids chosen t ht hnc) h))
      · rw [if_neg hl, if_neg hl]

/-- Every run of the greedy loop only ever appends to the chosen list. -/
lemma greedyLoop_extends (cov : Nat → Finset Nat) (tids : List Nat)
    (limit : Option Nat) :
    ∀ (fuel : Nat) (chosen : List Nat) (uncovered : Finset Nat),
      ∃ ext, greedyLoop cov tids limit fuel chosen uncovered = chosen ++ ext := by
  intro fuel
  induction fuel with
  | zero => intro c u; exact ⟨[], by simp [greedyLoop]⟩
  | succ n ih =>
    intro c u
    rw [greedyLoop]
    by_cases hu : u = ∅
    · rw [if_pos hu]; exact ⟨[], by simp⟩
    · rw [if_neg hu]
      by_cases hl : limit_allows limit c = true
      · rw [if_pos hl]
        cases hp : (selectBest cov u c tids (none, 0)).1 with
        | none => exact ⟨[], by simp⟩
        | some t =>
          obtain ⟨ext, hext⟩ := ih (c ++ [t]) (u \ cov t)
          exact ⟨t :: ext, by simpa using hext⟩
      · rw [if_neg hl]; exact ⟨[], by simp⟩

/-- The unlimited run extends the limited run of the same loop state. -/
lemma greedyLoop_none_extends (cov : Nat → Finset Nat) (tids : List Nat) (k : Nat) :
    ∀ (fuel : Nat) (chosen : List Nat) (uncovered : Finset Nat),
      ∃ ext, greedyLoop cov tids none fuel chosen uncovered
        = greedyLoop cov tids (some k) fuel chosen uncovered ++ ext := by
  intro fuel
  induction fuel with
  | zero => intro c u; exact ⟨[], by simp [greedyLoop]⟩
  | succ n ih =>
    intro c u
    rw [greedyLoop, greedyLoop]
    have hcn : limit_allows none c = true := rfl
    by_cases hu : u = ∅
    · rw [if_pos hu, if_pos hu]; exact ⟨[], by simp⟩
    · rw [if_neg hu, if_neg hu, if_pos hcn]
      by_cases hck : limit_allows (some k) c = true
      · rw [if_pos hck]
        cases hp : (selectBest cov u c tids (none, 0)).1 with
        | none => exact ⟨[], by simp⟩
        | some t => exact ih (c ++ [t]) (u \ cov t)
      · rw [if_neg hck]
        cases hp : (selectBest cov u c tids (none, 0)).1 with
        | none => exact ⟨[], by simp⟩
        | some t =>
          obtain ⟨ext, hext⟩ := greedyLoop_extends cov tids none n (c ++ [t]) (u \ cov t)
          exact ⟨t :: ext, by simpa using hext⟩

/-- The greedy loop preserves freshness and candidate membership of the
chosen list. -/
lemma greedyLoop_sound (cov : Nat → Finset Nat) (tids : List Nat)
    (limit : Option Nat) :
    ∀ (fuel : Nat) (chosen : List Nat) (uncovered : Finset Nat),
      chosen.Nodup → chosen ⊆ tids →
      (greedyLoop cov tids limit fuel chosen uncovered).Nodup
        ∧ greedyLoop cov tids limit fuel chosen uncovered ⊆ tids := by
  intro fuel
  induction fuel with
  | zero => intro c u h1 h2; exact ⟨h1, h2⟩
  | succ n ih =>
    intro c u h1 h2
    rw [greedyLoop]
    by_cases hu : u = ∅
    · rw [if_pos hu]; exact ⟨h1, h2⟩
    · rw [if_neg hu]
      by_cases hl : limit_allows limit c = true
      · rw [if_pos hl]
        cases hp : (selectBest cov u c tids (none, 0)).1 with
        | none => exact ⟨h1, h2⟩
        | some t =>
          rw [selectBest_none] at hp
          obtain ⟨ht, hnc⟩ := specPick_mem cov u c tids t hp
          refine ih (c ++ [t]) (u \ cov t) ?_ ?_
          · simp [List.nodup_append, h1, hnc]
          · intro x hx
            rcases List.mem_append.mp hx with h | h
            · exact h2 h
            · rw [List.mem_singleton.mp h]; exact ht
      · rw [if_neg hl]; exact ⟨h1, h2⟩

/-- With a numeric limit the chosen list never exceeds it. -/
lemma greedyLoop_length_le (cov : Nat → Finset Nat) (tids : List Nat) (k : Nat) :
    ∀ (fuel : Nat) (chosen : List Nat) (uncovered : Finset Nat),
      chosen.length ≤ k →
      (greedyLoop cov tids (some k) fuel chosen uncovered).length ≤ k := by
  intro fuel
  induction fuel with
  | zero => intro c u h; exact h
  | succ n ih =>
    intro c u h
    rw [greedyLoop]
    by_cases hu : u = ∅
    · rw [if_pos hu]; exact h
    · rw [if_neg hu]
      by_cases hl : limit_allows (some k) c = true
      · rw [if_pos hl]
        cases hp : (selectBest cov u c tids (none, 0)).1 with
        | none => exact h
        | some t =>
          have hck : c.length < k := by simpa [limit_allows] using hl
          exact ih (c ++ [t]) (u \ cov t) (by simpa using hck)
      · rw [if_neg hl]; exact h

/-- Unions of covered-form sets concatenate. -/
lemma covUnion_append (db : DB) (l1 l2 : List Nat) :
    covUnion db (l1 ++ l2) = covUnion db l1 ∪ covUnion db l2 := by
  induction l1 with
  | nil => simp [covUnion]
  | cons a as ih =>
    simp only [covUnion, List.cons_append, List.foldr_cons] at ih ⊢
    rw [ih, Finset.union_assoc]

/-- The empty store. -/
def emptyDB : DB :=
  ⟨[], [], [], [], [], [], [], [], [], [], [], [], []⟩

/-- Spec example scenario 2: lemmas `{1, 2, 3}` (A, B, C); text `101` covers
`{1, 2}` through sentence `201`, text `102` covers `{2, 3}` through
sentence `202`. -/
def exampleDB : DB :=
  { emptyDB with
    dictionary_forms :=
      [⟨1, "A", "", "", 1, false, none⟩, ⟨2, "B", "", "", 1, false, none⟩,
       ⟨3, "C", "", "", 1, false, none⟩]
    surface_forms :=
      [⟨11, 1, "a", "", some "", 1, false⟩, ⟨12, 2, "b", "", some "", 1, false⟩,
       ⟨13, 3, "c", "", some "", 1, false⟩]
    surface_form_sentences := [⟨11, 201⟩, ⟨12, 201⟩, ⟨12, 202⟩, ⟨13, 202⟩]
    sentences := [⟨201, 101, "ab", 0⟩, ⟨202, 102, "bc", 0⟩]
    texts := [⟨101, "t1", "book", 0, true⟩, ⟨102, "t2", "book", 0, true⟩] }

/-- C2: `greedy_set_cover` computes exactly the spec's greedy loop (precomputed
per-text coverage, repeated first-encountered argmax of covered∩uncovered,
removal of the chosen text's covered lemmas, stopping on empty uncovered set,
no improving text, or the limit), and on the target `{A, B, C}` with candidates
covering `{A, B}` and `{B, C}` it returns both texts. -/
theorem greedy_set_cover_correct :
    (∀ (db : DB) (forms text_ids : List Nat) (limit : Option Nat),
        greedy_set_cover db forms text_ids limit
          = greedySetCoverSpec db forms text_ids limit)
    ∧ greedy_set_cover exampleDB [1, 2, 3] [101, 102] none = [101, 102] := by
  constructor
  · intro db forms text_ids limit
    exact greedyLoop_eq_specLoop _ _ _ _ _ _
  · decide

/-- C7: chosen texts with `limit = None` cover a superset of the lemmas covered
with any finite limit on the same inputs. -/
theorem greedy_set_cover_coverage_monotone (db : DB) (forms text_ids : List Nat)
    (k : Nat) :
    covUnion db (greedy_set_cover db forms text_ids (some k))
      ⊆ covUnion db (greedy_set_cover db forms text_ids none) := by
  obtain ⟨ext, hext⟩ := greedyLoop_none_extends
    (fun t => get_forms_covered_by_text db t) text_ids k
    (text_ids.length + 1) [] forms.toFinset
  rw [greedy_set_cover, greedy_set_cover, hext, covUnion_append]
  exact Finset.subset_union_left

/-- C9: the chosen list has no duplicates, draws only from the candidate list,
and respects a numeric limit. -/
theorem greedy_set_cover_invariants (db : DB) (forms text_ids : List Nat)
    (limit : Option Nat) (k : Nat) :
    (greedy_set_cover db forms text_ids limit).Nodup
      ∧ greedy_set_cover db forms text_ids limit ⊆ text_ids
      ∧ (greedy_set_cover db forms text_ids (some k)).length ≤ k := by
  obtain ⟨h1, h2⟩ := greedyLoop_sound (fun t => get_forms_covered_by_text db t)
    text_ids limit (text_ids.length + 1) [] forms.toFinset List.nodup_nil
    (List.nil_subset _)
  exact ⟨h1, h2, greedyLoop_length_le _ _ _ _ _ _ (Nat.zero_le _)⟩

/-- The distinct known lemmas linked to the text's sentences. -/
def knownLinkedLemmas (db : DB) (tid : Nat) : Finset Nat :=
  (((textLinkedForms db tid).filter (fun f => f.known)).map
    (fun df => df.dict_form_id)).toFinset

/-- The percentage the spec prescribes for a text: distinct known linked lemmas
over all distinct linked lemmas, times 100, and 100 for a lemma-free text. -/
def comprehensionPerSpec (db : DB) (tid : Nat) : ℚ :=
  if get_forms_covered_by_text db tid = ∅ then 100
  else ((knownLinkedLemmas db tid).card : ℚ)
      / ((get_forms_covered_by_text db tid).card : ℚ) * 100

/-- C1: `update_text_comprehension` stores, on every row of the text, the
percentage of distinct known linked lemmas among all distinct linked lemmas
(100 for a text with no linked lemmas), and that value lies in `[0, 100]`. -/
theorem update_text_comprehension_correct (db : DB) (tid : Nat)
    (hpk : (db.dictionary_forms.map (fun df => df.dict_form_id)).Nodup) :
    (update_text_comprehension db tid).texts
      = db.texts.map (fun t =>
          if t.text_id = tid then
            { t with comprehension_percentage := comprehensionPerSpec db tid }
          else t)
    ∧ 0 ≤ comprehensionPerSpec db tid ∧ comprehensionPerSpec db tid ≤ 100 := by
  have hnodup : ((textLinkedForms db tid).map (fun df => df.dict_form_id)).Nodup :=
    hpk.sublist ((List.filter_sublist _).map _)
  have hnodup2 : (((textLinkedForms db tid).filter (fun f => f.known)).map
      (fun df => df.dict_form_id)).Nodup :=
    hpk.sublist (((List.filter_sublist _).trans (List.filter_sublist _)).map _)
  have hcard1 : (get_forms_covered_by_text db tid).card = (textLinkedForms db tid).length := by
    rw [get_forms_covered_by_text, List.toFinset_card_of_nodup hnodup, List.length_map]
  have hcard2 : (knownLinkedLemmas db tid).card
      = ((textLinkedForms db tid).filter (fun f => f.known)).length := by
    rw [knownLinkedLemmas, List.toFinset_card_of_nodup hnodup2, List.length_map]
  have hsubset : knownLinkedLemmas db tid ⊆ get_forms_covered_by_text db tid := by
    intro x hx
    rw [knownLinkedLemmas, List.mem_toFinset] at hx
    rw [get_forms_covered_by_text, List.mem_toFinset]
    obtain ⟨df, hdf, hx⟩ := List.mem_map.mp hx
    exact List.mem_map.mpr ⟨df, (List.filter_sublist _).subset hdf, hx⟩
  have hempty : textLinkedForms db tid = [] ↔ get_forms_covered_by_text db tid = ∅ := by
    rw [get_forms_covered_by_text, List.toFinset_eq_empty_iff, List.map_eq_nil_iff]
  have hval : (if textLinkedForms db tid = [] then (100 : ℚ)
      else (((textLinkedForms db tid).filter (fun f => f.known)).length : ℚ)
          / ((textLinkedForms db tid).length : ℚ) * 100)
      = comprehensionPerSpec db tid := by
    rw [comprehensionPerSpec]
    by_cases he : textLinkedForms db tid = []
    · rw [if_pos he, if_pos (hempty.mp he)]
    · rw [if_neg he, if_neg (fun h => he (hempty.mpr h)), hcard1, hcard2]
  refine ⟨?_, ?_, ?_⟩
  · simp only [update_text_comprehension]
    simp only [hval]
  · rw [comprehensionPerSpec]
    split_ifs
    · norm_num
    · positivity
  · rw [comprehensionPerSpec]
    split_ifs with h
    · norm_num
    · have hpos : 0 < ((get_forms_covered_by_text db tid).card : ℚ) := by
        have h1 : 0 < (get_forms_covered_by_text db tid).card :=
          Finset.card_pos.mpr (Finset.nonempty_iff_ne_empty.mpr h)
        exact_mod_cast h1
      have hk : ((knownLinkedLemmas db tid).card : ℚ)
          ≤ ((get_forms_covered_by_text db tid).card : ℚ) := by
        exact_mod_cast Finset.card_le_card hsubset
      have hdiv : ((knownLinkedLemmas db tid).card : ℚ)
          / ((get_forms_covered_by_text db tid).card : ℚ) ≤ 1 :=
        (div_le_one hpos).mpr hk
      calc ((knownLinkedLemmas db tid).card : ℚ)
          / ((get_forms_covered_by_text db tid).card : ℚ) * 100
          ≤ 1 * 100 := by
            exact mul_le_mul_of_nonneg_right hdiv (by norm_num)
        _ = 100 := by norm_num

/-- Witness for C1 at the concrete example store and text `101`. -/
theorem update_text_comprehension_correct_witness :
    (exampleDB.dictionary_forms.map (fun df => df.dict_form_id)).Nodup
    ∧ ((update_text_comprehension exampleDB 101).texts
        = exampleDB.texts.map (fun t =>
            if t.text_id = 101 then
              { t with comprehension_percentage := comprehensionPerSpec exampleDB 101 }
            else t)
      ∧ 0 ≤ comprehensionPerSpec exampleDB 101
      ∧ comprehensionPerSpec exampleDB 101 ≤ 100) :=
  ⟨by decide, update_text_comprehension_correct exampleDB 101 (by decide)⟩

/-- The unknown-lemma join of `get_unknown_dict_forms_from_card`, keyed by the
sentence: distinct ids of unknown dictionary forms linked to the sentence. -/
def unknownFormsOfSentence (db : DB) (sid : Nat) : List Nat :=
  (db.dictionary_forms.filter (fun df =>
    !df.known &&
    db.surface_forms.any (fun sf =>
      decide (sf.dict_form_id = df.dict_form_id) &&
      db.surface_form_sentences.any (fun l =>
        decide (l.surface_form_id = sf.surface_form_id) &&
        decide (l.sentence_id = sid))))).map (fun df => df.dict_form_id)

/-- `DatabaseManager.get_unknown_dict_forms_from_card`: look up the card's
sentence, then collect the distinct unknown lemmas of that sentence; `[]` when
the card or its sentence is missing. -/
def get_unknown_dict_forms_from_card (db : DB) (card_id : Nat) : List Nat :=
  match db.cards.find? (fun c => decide (c.card_id = card_id)) with
  | none => []
  | some c =>
    match c.sentence_id with
    | none => []
    | some sid => unknownFormsOfSentence db sid

/-- `DatabaseManager.dict_form_covered_by_texts`: `False` on an empty text
list, otherwise whether some sentence of a chosen text links the form. -/
def dict_form_covered_by_texts (db : DB) (dict_form_id : Nat)
    (chosen_text_ids : List Nat) : Bool :=
  if chosen_text_ids = [] then false
  else
    db.dictionary_forms.any (fun df =>
      decide (df.dict_form_id = dict_form_id) &&
      db.surface_forms.any (fun sf =>
        decide (sf.dict_form_id = df.dict_form_id) &&
        db.surface_form_sentences.any (fun l =>
          decide (l.surface_form_id = sf.surface_form_id) &&
          db.sentences.any (fun s =>
            decide (s.sentence_id = l.sentence_id) &&
            decide (s.text_id ∈ chosen_text_ids)))))

/-- `DatabaseManager.set_card_unobtainable`: UPDATE of the card's flag. -/
def set_card_unobtainable (db : DB) (card_id : Nat) (u : Bool) : DB :=
  { db with
    cards := db.cards.map (fun c =>
      if c.card_id = card_id then { c with unobtainable := u } else c) }

/-- One iteration of `filter_cards_by_coverage`'s `for card_id in ...` loop. -/
def coverageStep (chosen_text_ids : List Nat) (acc : List Nat × DB) (cid : Nat) :
    List Nat × DB :=
  let unknown_forms := get_unknown_dict_forms_from_card acc.2 cid
  if unknown_forms = [] then (acc.1 ++ [cid], acc.2)
  else if unknown_forms.all (fun df => dict_form_covered_by_texts acc.2 df chosen_text_ids)
  then (acc.1 ++ [cid], set_card_unobtainable acc.2 cid false)
  else (acc.1, set_card_unobtainable acc.2 cid true)

/-- `DatabaseManager.filter_cards_by_coverage`: returns the selected card ids
and the store with updated `unobtainable` flags. -/
def filter_cards_by_coverage (db : DB) (candidate_card_ids chosen_text_ids : List Nat) :
    List Nat × DB :=
  candidate_card_ids.foldl (coverageStep chosen_text_ids) ([], db)

/-- A card counts as covered when each of its unknown lemmas is covered by the
chosen texts (vacuously so for an empty unknown set). -/
def coveredCard (db : DB) (chosen_text_ids : List Nat) (cid : Nat) : Bool :=
  (get_unknown_dict_forms_from_card db cid).all
    (fun df => dict_form_covered_by_texts db df chosen_text_ids)

/-- Whether some processed candidate with a nonempty unknown set targets this
card id (those are the cards whose flag the loop writes). -/
def touchedCard (db : DB) (cand : List Nat) (i : Nat) : Bool :=
  cand.any (fun x => decide (x = i) &&
    !decide (get_unknown_dict_forms_from_card db x = []))

/-- The store with card flags rewritten on the ids selected by `q`. -/
def mappedCards (db : DB) (q : Nat → Bool) (ψ : Nat → Bool) : DB :=
  { db with
    cards := db.cards.map (fun c =>
      if q c.card_id then { c with unobtainable := ψ c.card_id } else c) }

/-- Rewriting card flags never changes which card row a lookup finds, up to its
`sentence_id`. -/
lemma find_card_mapped (l : List CardRow) (q ψ : Nat → Bool) (x : Nat) :
    ((l.map (fun c => if q c.card_id then { c with unobtainable := ψ c.card_id } else c)).find?
        (fun c => decide (c.card_id = x))).map (fun c => c.sentence_id)
      = (l.find? (fun c => decide (c.card_id = x))).map (fun c => c.sentence_id) := by
  induction l with
  | nil => rfl
  | cons a as ih =>
    have hid : (if q a.card_id then { a with unobtainable := ψ a.card_id } else a).card_id
        = a.card_id := by split <;> rfl
    rw [List.map_cons, List.find?_cons, List.find?_cons, hid]
    cases hd : decide (a.card_id = x) with
    | false => exact ih
    | true =>
      have hs : (if q a.card_id then { a with unobtainable := ψ a.card_id } else a).sentence_id
          = a.sentence_id := by split <;> rfl
      simp [hs]

/-- Card-flag rewrites do not change a card's unknown-lemma set. -/
lemma get_unknown_mappedCards (db : DB) (q ψ : Nat → Bool) (x : Nat) :
    get_unknown_dict_forms_from_card (mappedCards db q ψ) x
      = get_unknown_dict_forms_from_card db x := by
  rw [get_unknown_dict_forms_from_card, get_unknown_dict_forms_from_card]
  have h := find_card_mapped db.cards q ψ x
  cases hf : db.cards.find? (fun c => decide (c.card_id = x)) with
  | none =>
    rw [hf] at h
    have h2 : (mappedCards db q ψ).cards.find? (fun c => decide (c.card_id = x)) = none :=
      Option.map_eq_none'.mp
        (show ((mappedCards db q ψ).cards.find?
            (fun c => decide (c.card_id = x))).map (fun c => c.sentence_id) = none from h)
    rw [h2]
  | some c =>
    rw [hf] at h
    cases hf2 : (mappedCards db q ψ).cards.find? (fun c => decide (c.card_id = x)) with
    | none =>
      rw [show (mappedCards db q ψ).cards
          = db.cards.map (fun c => if q c.card_id then { c with unobtainable := ψ c.card_id } else c)
          from rfl] at hf2
      rw [hf2] at h
      simp at h
    | some c2 =>
      rw [show (mappedCards db q ψ).cards
          = db.cards.map (fun c => if q c.card_id then { c with unobtainable := ψ c.card_id } else c)
          from rfl] at hf2
      rw [hf2] at h
      have hsid : c2.sentence_id = c.sentence_id := by simpa using h
      show (match c2.sentence_id with
          | none => ([] : List Nat)
          | some sid => unknownFormsOfSentence (mappedCards db q ψ) sid)
        = match c.sentence_id with
          | none => []
          | some sid => unknownFormsOfSentence db sid
      rw [hsid]
      cases c.sentence_id <;> rfl

/-- Card-flag rewrites do not change text coverage of a dictionary form. -/
lemma dict_form_covered_mappedCards (db : DB) (q ψ : Nat → Bool) (d : Nat)
    (ts : List Nat) :
    dict_form_covered_by_texts (mappedCards db q ψ) d ts
      = dict_form_covered_by_texts db d ts := rfl

/-- Setting one card's flag on a flag-rewritten store is again a flag rewrite. -/
lemma set_mappedCards (db : DB) (q ψ : Nat → Bool) (cid : Nat) (u : Bool) :
    set_card_unobtainable (mappedCards db q ψ) cid u
      = mappedCards db (fun i => q i || decide (i = cid))
          (fun i => if i = cid then u else ψ i) := by
  show ({ db with cards := _ } : DB) = { db with cards := _ }
  rw [DB.mk.injEq]
  refine ⟨rfl, rfl, rfl, rfl, rfl, ?_, rfl, rfl, rfl, rfl, rfl, rfl, rfl⟩
  show (db.cards.map _).map _ = db.cards.map _
  rw [List.map_map]
  apply List.map_congr_left
  intro c _
  by_cases hic : c.card_id = cid
  · subst hic
    by_cases hq : q c.card_id = true <;> simp [Function.comp, hq]
  · by_cases hq : q c.card_id = true <;> simp [Function.comp, hq, hic]

/-- Pointwise-equal flag rewrites produce the same store. -/
lemma mappedCards_congr (db : DB) (q q' ψ ψ' : Nat → Bool)
    (hq : ∀ i, q i = q' i) (hψ : ∀ i, q i = true → ψ i = ψ' i) :
    mappedCards db q ψ = mappedCards db q' ψ' := by
  rw [mappedCards, mappedCards, DB.mk.injEq]
  refine ⟨rfl, rfl, rfl, rfl, rfl, ?_, rfl, rfl, rfl, rfl, rfl, rfl, rfl⟩
  apply List.map_congr_left
  intro c _
  by_cases h : q c.card_id = true
  · rw [if_pos h, if_pos ((hq c.card_id) ▸ h), hψ c.card_id h]
  · rw [if_neg h, if_neg (fun h2 => h ((hq c.card_id) ▸ h2))]

/-- A vacuous flag rewrite is the identity. -/
lemma mappedCards_false (db : DB) (ψ : Nat → Bool) :
    mappedCards db (fun _ => false) ψ = db := by
  rw [mappedCards]
  have h : db.cards.map
      (fun c => if (false : Bool) = true then { c with unobtainable := ψ c.card_id } else c)
      = db.cards := by
    apply List.map_congr_left ?_ |>.trans (List.map_id _)
    intro c _
    simp
  rw [h]

/-- One loop step, evaluated on a flag-rewritten store. -/
lemma coverageStep_eval (chosen : List Nat) (sel : List Nat) (db : DB)
    (q ψ : Nat → Bool) (cid : Nat) :
    coverageStep chosen (sel, mappedCards db q ψ) cid
      = if get_unknown_dict_forms_from_card db cid = [] then
          (sel ++ [cid], mappedCards db q ψ)
        else if coveredCard db chosen cid then
          (sel ++ [cid], mappedCards db (fun i => q i || decide (i = cid))
            (fun i => if i = cid then false else ψ i))
        else
          (sel, mappedCards db (fun i => q i || decide (i = cid))
            (fun i => if i = cid then true else ψ i)) := by
  rw [coverageStep]
  simp only [get_unknown_mappedCards, dict_form_covered_mappedCards]
  by_cases h1 : get_unknown_dict_forms_from_card db cid = []
  · rw [if_pos h1, if_pos h1]
  · rw [if_neg h1, if_neg h1]
    by_cases h2 : coveredCard db chosen cid = true
    · rw [if_pos (show ((get_unknown_dict_forms_from_card db cid).all
          (fun df => dict_form_covered_by_texts db df chosen)) = true from h2),
        if_pos h2, set_mappedCards]
    · rw [if_neg (show ¬ ((get_unknown_dict_forms_from_card db cid).all
          (fun df => dict_form_covered_by_texts db df chosen)) = true from h2),
        if_neg h2, set_mappedCards]

/-- The whole card-coverage loop on a flag-rewritten store: selected cards are
the covered candidates, and flags are rewritten exactly on the candidates with
a nonempty unknown set. -/
lemma coverage_fold (db : DB) (chosen : List Nat) :
    ∀ (cand sel : List Nat) (q ψ : Nat → Bool),
      cand.foldl (coverageStep chosen) (sel, mappedCards db q ψ)
        = (sel ++ cand.filter (fun cid => coveredCard db chosen cid),
           mappedCards db (fun i => q i || touchedCard db cand i)
             (fun i => if touchedCard db cand i then !coveredCard db chosen i
                       else ψ i)) := by
  intro cand
  induction cand with
  | nil =>
    intro sel q ψ
    rw [List.foldl_nil, List.filter_nil, List.append_nil]
    exact congrArg (fun d => (sel, d))
      (mappedCards_congr db _ _ _ _ (fun i => by simp [touchedCard])
        (fun i _ => by simp [touchedCard]))
  | cons cid rest ih =>
    intro sel q ψ
    rw [List.foldl_cons, coverageStep_eval]
    by_cases h1 : get_unknown_dict_forms_from_card db cid = []
    · rw [if_pos h1, ih]
      have hcov : coveredCard db chosen cid = true := by
        rw [coveredCard, h1]
        rfl
      have htch : ∀ i, touchedCard db rest i = touchedCard db (cid :: rest) i := by
        intro i
        rw [touchedCard, touchedCard, List.any_cons]
        simp [h1]
      rw [List.filter_cons_of_pos (by simp [hcov]), Prod.mk.injEq]
      refine ⟨by simp, ?_⟩
      exact mappedCards_congr db _ _ _ _ (fun i => by rw [htch i])
        (fun i _ => by rw [htch i])
    · rw [if_neg h1]
      have htch : ∀ i, touchedCard db (cid :: rest) i
          = (decide (i = cid) || touchedCard db rest i) := by
        intro i
        rw [touchedCard, touchedCard, List.any_cons]
        by_cases hic : i = cid
        · simp [hic, h1]
        · have hic2 : ¬ cid = i := fun h => hic h.symm
          simp [hic, hic2, h1]
      by_cases h2 : coveredCard db chosen cid = true
      · rw [if_pos h2, ih, List.filter_cons_of_pos (by simp [h2]), Prod.mk.injEq]
        refine ⟨by simp, ?_⟩
        refine mappedCards_congr db _ _ _ _ (fun i => ?_) (fun i _ => ?_)
        · rw [htch i]
          by_cases hic : i = cid <;> simp [hic, Bool.or_assoc, Bool.or_comm]
        · rw [htch i]
          by_cases htr : touchedCard db rest i = true
          · simp [htr]
          · by_cases hic : i = cid
            · subst hic
              simp [htr, h2]
            · simp [htr, hic]
      · rw [if_neg h2, ih, List.filter_cons_of_neg (by simp [h2]), Prod.mk.injEq]
        refine ⟨rfl, ?_⟩
        refine mappedCards_congr db _ _ _ _ (fun i => ?_) (fun i _ => ?_)
        · rw [htch i]
          by_cases hic : i = cid <;> simp [hic, Bool.or_assoc, Bool.or_comm]
        · rw [htch i]
          by_cases htr : touchedCard db rest i = true
          · simp [htr]
          · by_cases hic : i = cid
            · subst hic
              simp [htr, h2]
            · simp [htr, hic]

/-- Characterisation of `filter_cards_by_coverage` on an arbitrary store. -/
lemma filter_cards_characterization (db : DB) (cand chosen : List Nat) :
    filter_cards_by_coverage db cand chosen
      = (cand.filter (fun cid => coveredCard db chosen cid),
         mappedCards db (fun i => touchedCard db cand i)
           (fun i => !coveredCard db chosen i)) := by
  rw [filter_cards_by_coverage]
  rw [show db = mappedCards db (fun _ => false) (fun _ => false) from
    (mappedCards_false db _).symm]
  rw [coverage_fold db chosen cand [] (fun _ => false) (fun _ => false)]
  rw [mappedCards_false, Prod.mk.injEq]
  refine ⟨by simp, ?_⟩
  refine mappedCards_congr db _ _ _ _ (fun i => by simp) (fun i hi => ?_)
  have ht : touchedCard db cand i = true := by simpa using hi
  rw [if_pos ht]

/-- A store holding one card whose `unobtainable` flag is stale `true` while
the card has no sentence (hence no unknown lemmas). -/
def c3DB : DB := { emptyDB with cards := [⟨1, 1, none, true, false⟩] }

/-- C3 counterexample: the vacuously covered card is returned as covered, yet
its stored `unobtainable` flag remains `true` after the run — the claim's
"flag is false iff covered" fails for cards with an empty unknown set. -/
theorem filter_cards_stale_flag_cex :
    (filter_cards_by_coverage c3DB [1] []).1 = [1]
    ∧ (filter_cards_by_coverage c3DB [1] []).2.cards.map (fun c => c.unobtainable)
      = [true] := by
  decide

/-- C3 (amended): the returned list holds exactly the covered candidates; the
loop rewrites the flag only on candidates with a nonempty unknown set (to the
negation of their coverage), leaving every other card's stored flag
unchanged. -/
theorem filter_cards_by_coverage_correct (db : DB) (cand chosen : List Nat) :
    (filter_cards_by_coverage db cand chosen).1
      = cand.filter (fun cid => coveredCard db chosen cid)
    ∧ (filter_cards_by_coverage db cand chosen).2
      = mappedCards db (fun i => touchedCard db cand i)
          (fun i => !coveredCard db chosen i) := by
  rw [filter_cards_characterization]
  exact ⟨rfl, rfl⟩

/-- With no chosen texts, no form counts as covered. -/
lemma coveredCard_nil (db : DB) (cid : Nat) :
    coveredCard db [] cid = decide (get_unknown_dict_forms_from_card db cid = []) := by
  rw [coveredCard]
  have hc : ∀ d, dict_form_covered_by_texts db d [] = false := fun d => rfl
  cases h : get_unknown_dict_forms_from_card db cid with
  | nil => rfl
  | cons a as => simp [hc]

/-- C10: with an empty chosen-text list the loop keeps exactly the candidates
with no unknown lemmas and writes `unobtainable := true` on every candidate
that has at least one. -/
theorem filter_cards_empty_chosen (db : DB) (cand : List Nat) :
    (filter_cards_by_coverage db cand []).1
      = cand.filter (fun cid => decide (get_unknown_dict_forms_from_card db cid = []))
    ∧ (filter_cards_by_coverage db cand []).2
      = mappedCards db (fun i => touchedCard db cand i) (fun _ => true) := by
  rw [filter_cards_characterization]
  constructor
  · apply List.filter_congr
    intro cid _
    rw [coveredCard_nil]
  · show mappedCards db (fun i => touchedCard db cand i) (fun i => !coveredCard db [] i)
        = mappedCards db (fun i => touchedCard db cand i) (fun _ => true)
    refine mappedCards_congr db _ _ _ _ (fun i => rfl) (fun i hi => ?_)
    rw [coveredCard_nil]
    have hne : get_unknown_dict_forms_from_card db i ≠ [] := by
      rw [touchedCard] at hi
      simp only [List.any_eq_true, Bool.and_eq_true, decide_eq_true_eq,
        Bool.not_eq_true', decide_eq_false_iff_not] at hi
      obtain ⟨x, _, hxi, hne⟩ := hi
      exact hxi ▸ hne
    simp [hne]

/-- `remove_surrogates`: strip UTF-16 surrogate code points (U+D800–U+DFFF).
Lean strings cannot hold surrogates, so the filter drops nothing here, but the
embedding keeps the source's operation. -/
def remove_surrogates (text : String) : String :=
  if text = "" then text
  else String.mk (text.data.filter (fun c =>
    decide (c.toNat < 0xD800) || decide (0xDFFF < c.toNat)))

/-- Fresh `AUTOINCREMENT` id for the `dictionary_forms` table. -/
def nextDictFormId (db : DB) : Nat :=
  (db.dictionary_forms.map (fun df => df.dict_form_id)).foldr max 0 + 1

/-- `DatabaseManager.get_or_create_dictionary_form`: find-or-create by base
form; on hit bump the found row's frequency by one, on miss insert with
frequency 1. -/
def get_or_create_dictionary_form (db : DB) (base_form reading pos : String) :
    Nat × DB :=
  let base := remove_surrogates base_form
  let read := remove_surrogates reading
  let p := remove_surrogates pos
  match db.dictionary_forms.find? (fun df => decide (df.base_form = base)) with
  | some row =>
    (row.dict_form_id,
     { db with
       dictionary_forms := db.dictionary_forms.map (fun r =>
         if r.dict_form_id = row.dict_form_id then
           { r with frequency := row.frequency + 1 }
         else r) })
  | none =>
    (nextDictFormId db,
     { db with
       dictionary_forms := db.dictionary_forms ++
         [⟨nextDictFormId db, base, read, p, 1, false, none⟩] })

/-- The CJK-ideograph test of `contains_kanji` (`'一' <= c <= '鿿'`). -/
def isKanjiChar (c : Char) : Bool :=
  decide (0x4e00 ≤ c.toNat) && decide (c.toNat ≤ 0x9fff)

/-- `DatabaseManager.contains_kanji`. -/
def contains_kanji (text : String) : Bool :=
  text.data.any isKanjiChar

/-- Fresh `AUTOINCREMENT` id for the `compound_forms` table. -/
def nextCompoundId (db : DB) : Nat :=
  (db.compound_forms.map (fun r => r.compound_id)).foldr max 0 + 1

/-- Fresh `AUTOINCREMENT` id for the `kanji_entries` table. -/
def nextKanjiId (db : DB) : Nat :=
  (db.kanji_entries.map (fun r => r.kanji_id)).foldr max 0 + 1

/-- Fresh `AUTOINCREMENT` id for the `surface_forms` table. -/
def nextSurfaceFormId (db : DB) : Nat :=
  (db.surface_forms.map (fun r => r.surface_form_id)).foldr max 0 + 1

/-- Compound-form upsert of `_handle_compound_and_kanji`. -/
def compound_upsert (db : DB) (surface_form_id : Nat) (compound_text : String) :
    Nat × DB :=
  match db.compound_forms.find? (fun r =>
      decide (r.surface_form_id = surface_form_id) &&
      decide (r.compound_text = compound_text)) with
  | some row =>
    (row.compound_id,
     { db with
       compound_forms := db.compound_forms.map (fun r =>
         if r.compound_id = row.compound_id then
           { r with frequency := row.frequency + 1 }
         else r) })
  | none =>
    (nextCompoundId db,
     { db with
       compound_forms := db.compound_forms ++
         [⟨nextCompoundId db, surface_form_id, compound_text, 1, false⟩] })

/-- Kanji-entry upsert of `_handle_compound_and_kanji`. -/
def kanji_upsert (db : DB) (compound_id : Nat) (kchar : Char) : Nat × DB :=
  match db.kanji_entries.find? (fun r =>
      decide (r.compound_id = compound_id) && decide (r.kanji_char = kchar)) with
  | some row =>
    (row.kanji_id,
     { db with
       kanji_entries := db.kanji_entries.map (fun r =>
         if r.kanji_id = row.kanji_id then { r with frequency := row.frequency + 1 }
         else r) })
  | none =>
    (nextKanjiId db,
     { db with
       kanji_entries := db.kanji_entries ++
         [⟨nextKanjiId db, compound_id, kchar, 1, false⟩] })

/-- Per-character body of `_handle_compound_and_kanji`'s `for kchar` loop. -/
def kanji_step (compound_id surface_form_id sentence_id : Nat)
    (card_id : Option Nat) (db : DB) (kchar : Char) : DB :=
  let r := kanji_upsert db compound_id kchar
  { r.2 with kanji_linkage := r.2.kanji_linkage ++
      [⟨r.1, surface_form_id, sentence_id, card_id⟩] }

/-- `DatabaseManager._handle_compound_and_kanji`. -/
def handle_compound_and_kanji (db : DB) (surface_form_id : Nat)
    (compound_text : String) (sentence_id : Nat) (card_id : Option Nat) : DB :=
  let kanji_chars := compound_text.data.filter isKanjiChar
  if kanji_chars = [] then db
  else
    let r := compound_upsert db surface_form_id compound_text
    kanji_chars.foldl (kanji_step r.1 surface_form_id sentence_id card_id) r.2

/-- The trailing kanji-parsing block of `add_surface_form`: run the compound
and kanji handling and mark the surface form parsed, when asked and needed. -/
def finish_kanji (db : DB) (sid : Nat) (surface_form : String) (sentence_id : Nat)
    (card_id : Option Nat) (parse_kanji : Bool) : Nat × DB :=
  if parse_kanji && contains_kanji surface_form then
    let db3 := handle_compound_and_kanji db sid surface_form sentence_id card_id
    (sid,
     { db3 with
       surface_forms := db3.surface_forms.map (fun r =>
         if r.surface_form_id = sid then { r with kanji_parsed := true } else r) })
  else (sid, db)

/-- The surface-form lookup key of `add_surface_form`'s SELECT:
`dict_form_id = ? AND surface_form = ? AND reading = ? AND (pos = ? OR pos IS NULL)`. -/
def sfKey (dict_form_id : Nat) (s rd p : String) (r : SurfaceForm) : Bool :=
  decide (r.dict_form_id = dict_form_id) && decide (r.surface_form = s) &&
  decide (r.reading = rd) && (decide (r.pos = some p) || decide (r.pos = none))

/-- `DatabaseManager.add_surface_form`: find-or-create the surface form, bump
or initialise its frequency, link it to the sentence, then optionally parse
kanji. -/
def add_surface_form (db : DB) (dict_form_id : Nat) (surface_form reading : String)
    (pos : Option String) (sentence_id : Nat) (card_id : Option Nat)
    (parse_kanji : Bool) : Nat × DB :=
  let s := remove_surrogates surface_form
  let rd := remove_surrogates reading
  let p := remove_surrogates (pos.getD "")
  match db.surface_forms.find? (sfKey dict_form_id s rd p) with
  | some row =>
    let db1 : DB := { db with
      surface_forms := db.surface_forms.map (fun (r : SurfaceForm) =>
        if r.surface_form_id = row.surface_form_id then
          { r with frequency := row.frequency + 1 }
        else r) }
    let db2 : DB := { db1 with
      surface_form_sentences := db1.surface_form_sentences ++
        [(⟨row.surface_form_id, sentence_id⟩ : SFSLink)] }
    finish_kanji db2 row.surface_form_id s sentence_id card_id parse_kanji
  | none =>
    let sid := nextSurfaceFormId db
    let db1 : DB := { db with
      surface_forms := db.surface_forms ++
        [(⟨sid, dict_form_id, s, rd, some p, 1, false⟩ : SurfaceForm)] }
    let db2 : DB := { db1 with
      surface_form_sentences := db1.surface_form_sentences ++
        [(⟨sid, sentence_id⟩ : SFSLink)] }
    finish_kanji db2 sid s sentence_id card_id parse_kanji

/-- N repeated calls of the dictionary-form upsert with the same arguments. -/
def iterate_dict_upsert (base reading pos : String) : Nat → DB → DB
  | 0, db => db
  | n + 1, db =>
    iterate_dict_upsert base reading pos n
      (get_or_create_dictionary_form db base reading pos).2

/-- N repeated calls of the surface-form upsert with the same arguments. -/
def iterate_surface_upsert (dict_form_id : Nat) (surface_form reading : String)
    (pos : Option String) (sentence_id : Nat) (card_id : Option Nat)
    (parse_kanji : Bool) : Nat → DB → DB
  | 0, db => db
  | n + 1, db =>
    iterate_surface_upsert dict_form_id surface_form reading pos sentence_id
      card_id parse_kanji n
      (add_surface_form db dict_form_id surface_form reading pos sentence_id
        card_id parse_kanji).2

/-- Every member of a list of naturals is bounded by its `foldr max 0`. -/
lemma le_foldr_max (l : List Nat) : ∀ x ∈ l, x ≤ l.foldr max 0 := by
  induction l with
  | nil => intro x hx; cases hx
  | cons a as ih =>
    intro x hx
    rcases List.mem_cons.mp hx with h | h
    · subst h; exact le_max_left _ _
    · exact le_trans (ih x h) (le_max_right _ _)

/-- `find?` on a list ending in the only matching row returns that row. -/
lemma find?_append_singleton {α : Type} (l : List α) (row : α) (p : α → Bool)
    (h : ∀ r ∈ l, p r = false) (hr : p row = true) :
    (l ++ [row]).find? p = some row := by
  induction l with
  | nil => simp [List.find?, hr]
  | cons a as ih =>
    rw [List.cons_append, List.find?_cons, h a (List.mem_cons_self a as)]
    exact ih (fun r hrr => h r (List.mem_cons_of_mem a hrr))

/-- Filtering a list ending in the only matching row keeps exactly that row. -/
lemma filter_append_singleton {α : Type} (l : List α) (row : α) (p : α → Bool)
    (h : ∀ r ∈ l, p r = false) (hr : p row = true) :
    (l ++ [row]).filter p = [row] := by
  rw [List.filter_append]
  rw [List.filter_eq_nil_iff.mpr (fun a ha => by simp [h a ha])]
  simp [hr]

/-- Updating rows keyed by the appended row's id touches only that row. -/
lemma map_update_append_dict (l : List DictForm) (row : DictForm)
    (f : DictForm → DictForm)
    (hid : ∀ r ∈ l, r.dict_form_id ≠ row.dict_form_id) :
    (l ++ [row]).map (fun r => if r.dict_form_id = row.dict_form_id then f r else r)
      = l ++ [f row] := by
  rw [List.map_append]
  congr 1
  · exact (List.map_congr_left (fun r hr => if_neg (hid r hr))).trans (List.map_id _)
  · simp

/-- Updating rows keyed by the appended row's id touches only that row. -/
lemma map_update_append_surface (l : List SurfaceForm) (row : SurfaceForm)
    (f : SurfaceForm → SurfaceForm)
    (hid : ∀ r ∈ l, r.surface_form_id ≠ row.surface_form_id) :
    (l ++ [row]).map (fun r => if r.surface_form_id = row.surface_form_id then f r else r)
      = l ++ [f row] := by
  rw [List.map_append]
  congr 1
  · exact (List.map_congr_left (fun r hr => if_neg (hid r hr))).trans (List.map_id _)
  · simp

/-- One repeated-hit dictionary upsert: with the store `l ++ [row]` where only
`row` carries the base form and its id is fresh in `l`, the upsert bumps only
`row`'s frequency. -/
lemma dict_step_hit (db : DB) (base reading pos : String) (l : List DictForm)
    (row : DictForm) (hdb : db.dictionary_forms = l ++ [row])
    (hnl : ∀ r ∈ l, ¬ r.base_form = remove_surrogates base)
    (hrow : row.base_form = remove_surrogates base)
    (hid : ∀ r ∈ l, r.dict_form_id ≠ row.dict_form_id) :
    (get_or_create_dictionary_form db base reading pos).2.dictionary_forms
      = l ++ [{ row with frequency := row.frequency + 1 }] := by
  have hfind : db.dictionary_forms.find?
      (fun df => decide (df.base_form = remove_surrogates base)) = some row := by
    rw [hdb]
    exact find?_append_singleton l row _
      (fun r hr => by simp [hnl r hr]) (by simp [hrow])
  rw [get_or_create_dictionary_form]
  simp only [hfind]
  show (db.dictionary_forms.map _) = _
  rw [hdb]
  exact map_update_append_dict l row _ hid

/-- A missing base form is inserted with frequency 1 and a fresh id. -/
lemma dict_step_miss (db : DB) (base reading pos : String)
    (hmiss : ∀ r ∈ db.dictionary_forms, ¬ r.base_form = remove_surrogates base) :
    (get_or_create_dictionary_form db base reading pos).2.dictionary_forms
      = db.dictionary_forms ++
        [⟨nextDictFormId db, remove_surrogates base, remove_surrogates reading,
          remove_surrogates pos, 1, false, none⟩] := by
  have hfind : db.dictionary_forms.find?
      (fun df => decide (df.base_form = remove_surrogates base)) = none :=
    List.find?_eq_none.mpr (fun r hr => by simp [hmiss r hr])
  rw [get_or_create_dictionary_form]
  simp only [hfind]

/-- Dictionary ids in the store are strictly below the fresh id. -/
lemma dict_id_fresh (db : DB) : ∀ r ∈ db.dictionary_forms,
    r.dict_form_id ≠ nextDictFormId db := by
  intro r hr
  have := le_foldr_max (db.dictionary_forms.map (fun df => df.dict_form_id))
    r.dict_form_id (List.mem_map.mpr ⟨r, hr, rfl⟩)
  rw [nextDictFormId]
  omega

/-- After the first insert, `n` further upserts raise the frequency to
`1 + n` while leaving the other rows untouched. -/
lemma iterate_dict_established (base reading pos : String) :
    ∀ (n : Nat) (db : DB) (l : List DictForm) (row : DictForm),
      db.dictionary_forms = l ++ [row] →
      (∀ r ∈ l, ¬ r.base_form = remove_surrogates base) →
      row.base_form = remove_surrogates base →
      (∀ r ∈ l, r.dict_form_id ≠ row.dict_form_id) →
      (iterate_dict_upsert base reading pos n db).dictionary_forms
        = l ++ [{ row with frequency := row.frequency + n }] := by
  intro n
  induction n with
  | zero =>
    intro db l row hdb _ _ _
    rw [iterate_dict_upsert, hdb]
    simp
  | succ m ih =>
    intro db l row hdb hnl hrow hid
    rw [iterate_dict_upsert]
    have hstep := dict_step_hit db base reading pos l row hdb hnl hrow hid
    have := ih (get_or_create_dictionary_form db base reading pos).2 l
      { row with frequency := row.frequency + 1 } hstep hnl hrow hid
    rw [this]
    show l ++ [{ row with frequency := row.frequency + 1 + m }]
      = l ++ [{ row with frequency := row.frequency + (m + 1) }]
    rw [Nat.add_assoc, Nat.add_comm 1 m]

/-- Kanji-entry upserts leave `surface_forms` untouched. -/
lemma kanji_upsert_sf (db : DB) (cpid : Nat) (k : Char) :
    (kanji_upsert db cpid k).2.surface_forms = db.surface_forms := by
  unfold kanji_upsert
  split <;> rfl

/-- One kanji-loop step leaves `surface_forms` untouched. -/
lemma kanji_step_sf (cpid sfid sid : Nat) (card : Option Nat) (db : DB) (k : Char) :
    (kanji_step cpid sfid sid card db k).surface_forms = db.surface_forms := by
  rw [kanji_step]
  show (kanji_upsert db cpid k).2.surface_forms = db.surface_forms
  exact kanji_upsert_sf db cpid k

/-- The whole kanji loop leaves `surface_forms` untouched. -/
lemma foldl_kanji_sf (cpid sfid sid : Nat) (card : Option Nat) :
    ∀ (cs : List Char) (db : DB),
      (cs.foldl (kanji_step cpid sfid sid card) db).surface_forms
        = db.surface_forms := by
  intro cs
  induction cs with
  | nil => intro db; rfl
  | cons c cs ih =>
    intro db
    rw [List.foldl_cons, ih, kanji_step_sf]

/-- Compound-form upserts leave `surface_forms` untouched. -/
lemma compound_upsert_sf (db : DB) (sfid : Nat) (t : String) :
    (compound_upsert db sfid t).2.surface_forms = db.surface_forms := by
  unfold compound_upsert
  split <;> rfl

/-- `_handle_compound_and_kanji` leaves `surface_forms` untouched. -/
lemma handle_sf (db : DB) (sfid : Nat) (t : String) (sid : Nat)
    (card : Option Nat) :
    (handle_compound_and_kanji db sfid t sid card).surface_forms
      = db.surface_forms := by
  rw [handle_compound_and_kanji]
  by_cases h : t.data.filter isKanjiChar = []
  · rw [if_pos h]
  · rw [if_neg h]
    rw [foldl_kanji_sf, compound_upsert_sf]

/-- The trailing kanji block of `add_surface_form`: the `surface_forms` table
keeps its rows; only the given id's `kanji_parsed` flag may flip on. -/
lemma finish_kanji_sf (db : DB) (sid : Nat) (s : String) (sent : Nat)
    (card : Option Nat) (pk : Bool) (l : List SurfaceForm) (row : SurfaceForm)
    (hdb : db.surface_forms = l ++ [row]) (hrow : row.surface_form_id = sid)
    (hid : ∀ r ∈ l, r.surface_form_id ≠ sid) :
    (finish_kanji db sid s sent card pk).2.surface_forms
      = l ++ [{ row with
          kanji_parsed := (pk && contains_kanji s) || row.kanji_parsed }] := by
  rw [finish_kanji]
  by_cases h : (pk && contains_kanji s) = true
  · rw [if_pos h]
    show ((handle_compound_and_kanji db sid s sent card).surface_forms.map _) = _
    rw [handle_sf, hdb]
    rw [show (fun (r : SurfaceForm) =>
        if r.surface_form_id = sid then { r with kanji_parsed := true } else r)
      = (fun (r : SurfaceForm) =>
        if r.surface_form_id = row.surface_form_id then { r with kanji_parsed := true }
        else r) from by rw [hrow]]
    rw [map_update_append_surface l row _ (fun r hr => hrow ▸ hid r hr)]
    rw [h]
    simp
  · rw [if_neg h]
    show db.surface_forms = _
    rw [hdb]
    have hb : (pk && contains_kanji s) = false := by
      revert h
      cases pk && contains_kanji s <;> simp
    rw [hb]
    simp

/-- Surface-form ids in the store are strictly below the fresh id. -/
lemma surface_id_fresh (db : DB) : ∀ r ∈ db.surface_forms,
    r.surface_form_id ≠ nextSurfaceFormId db := by
  intro r hr
  have := le_foldr_max (db.surface_forms.map (fun sf => sf.surface_form_id))
    r.surface_form_id (List.mem_map.mpr ⟨r, hr, rfl⟩)
  rw [nextSurfaceFormId]
  omega

/-- One repeated-hit surface upsert: with the store `l ++ [row]` where only
`row` matches the lookup key and its id is fresh in `l`, the call bumps only
`row`'s frequency (and possibly its kanji flag). -/
lemma surface_step_hit (db : DB) (dfid : Nat) (surf sread : String)
    (spos : Option String) (sent : Nat) (card : Option Nat) (pk : Bool)
    (l : List SurfaceForm) (row : SurfaceForm)
    (hdb : db.surface_forms = l ++ [row])
    (hnl : ∀ r ∈ l, sfKey dfid (remove_surrogates surf) (remove_surrogates sread)
        (remove_surrogates (spos.getD "")) r = false)
    (hrow : sfKey dfid (remove_surrogates surf) (remove_surrogates sread)
        (remove_surrogates (spos.getD "")) row = true)
    (hid : ∀ r ∈ l, r.surface_form_id ≠ row.surface_form_id) :
    (add_surface_form db dfid surf sread spos sent card pk).2.surface_forms
      = l ++ [{ row with
          frequency := row.frequency + 1,
          kanji_parsed :=
            (pk && contains_kanji (remove_surrogates surf)) || row.kanji_parsed }] := by
  have hfind : db.surface_forms.find?
      (sfKey dfid (remove_surrogates surf) (remove_surrogates sread)
        (remove_surrogates (spos.getD ""))) = some row := by
    rw [hdb]
    exact find?_append_singleton l row _ hnl hrow
  rw [add_surface_form]
  simp only [hfind]
  exact finish_kanji_sf _ row.surface_form_id (remove_surrogates surf) sent card pk
    l { row with frequency := row.frequency + 1 }
    (by
      show (db.surface_forms.map _) = _
      rw [hdb]
      exact map_update_append_surface l row _ hid)
    rfl hid

/-- A missing surface form is inserted with frequency 1, a fresh id, the
given `pos`, and a kanji flag matching the parse request. -/
lemma surface_step_miss (db : DB) (dfid : Nat) (surf sread : String)
    (spos : Option String) (sent : Nat) (card : Option Nat) (pk : Bool)
    (hmiss : ∀ r ∈ db.surface_forms,
        sfKey dfid (remove_surrogates surf) (remove_surrogates sread)
          (remove_surrogates (spos.getD "")) r = false) :
    (add_surface_form db dfid surf sread spos sent card pk).2.surface_forms
      = db.surface_forms ++
        [⟨nextSurfaceFormId db, dfid, remove_surrogates surf, remove_surrogates sread,
          some (remove_surrogates (spos.getD "")), 1,
          pk && contains_kanji (remove_surrogates surf)⟩] := by
  have hfind : db.surface_forms.find?
      (sfKey dfid (remove_surrogates surf) (remove_surrogates sread)
        (remove_surrogates (spos.getD ""))) = none :=
    List.find?_eq_none.mpr (fun r hr => by simp [hmiss r hr])
  rw [add_surface_form]
  simp only [hfind]
  have := finish_kanji_sf
    ({ db with
        surface_forms := db.surface_forms ++
          [⟨nextSurfaceFormId db, dfid, remove_surrogates surf, remove_surrogates sread,
            some (remove_surrogates (spos.getD "")), 1, false⟩],
        surface_form_sentences := db.surface_form_sentences ++
          [⟨nextSurfaceFormId db, sent⟩] } : DB)
    (nextSurfaceFormId db) (remove_surrogates surf) sent card pk
    db.surface_forms
    ⟨nextSurfaceFormId db, dfid, remove_surrogates surf, remove_surrogates sread,
      some (remove_surrogates (spos.getD "")), 1, false⟩
    rfl rfl (surface_id_fresh db)
  rw [this]
  simp

/-- After the first insert, `n` further upserts raise the frequency to `1 + n`
while leaving the other surface rows untouched. -/
lemma iterate_surface_established (dfid : Nat) (surf sread : String)
    (spos : Option String) (sent : Nat) (card : Option Nat) (pk : Bool) :
    ∀ (n : Nat) (db : DB) (l : List SurfaceForm) (row : SurfaceForm),
      db.surface_forms = l ++ [row] →
      (∀ r ∈ l, sfKey dfid (remove_surrogates surf) (remove_surrogates sread)
          (remove_surrogates (spos.getD "")) r = false) →
      sfKey dfid (remove_surrogates surf) (remove_surrogates sread)
        (remove_surrogates (spos.getD "")) row = true →
      (∀ r ∈ l, r.surface_form_id ≠ row.surface_form_id) →
      ∃ b, (iterate_surface_upsert dfid surf sread spos sent card pk n db).surface_forms
        = l ++ [{ row with frequency := row.frequency + n, kanji_parsed := b }] := by
  intro n
  induction n with
  | zero =>
    intro db l row hdb _ _ _
    refine ⟨row.kanji_parsed, ?_⟩
    rw [iterate_surface_upsert, hdb]
    simp
  | succ m ih =>
    intro db l row hdb hnl hrow hid
    rw [iterate_surface_upsert]
    have hstep := surface_step_hit db dfid surf sread spos sent card pk l row
      hdb hnl hrow hid
    obtain ⟨b, hb⟩ := ih (add_surface_form db dfid surf sread spos sent card pk).2 l
      { row with
        frequency := row.frequency + 1,
        kanji_parsed :=
          (pk && contains_kanji (remove_surrogates surf)) || row.kanji_parsed }
      hstep hnl hrow hid
    refine ⟨b, ?_⟩
    rw [hb]
    show l ++ [{ row with frequency := row.frequency + 1 + m, kanji_parsed := b }]
      = l ++ [{ row with frequency := row.frequency + (m + 1), kanji_parsed := b }]
    rw [Nat.add_assoc, Nat.add_comm 1 m]

/-- C5: starting from a store without the entry, N dictionary-form upserts of
one base form leave exactly one matching row, with frequency N; and N
surface-form upserts of one key leave exactly one matching row, with frequency
N. -/
theorem upsert_frequency_N (db db2 : DB) (base reading pos : String)
    (dfid : Nat) (surf sread : String) (spos : Option String)
    (sent : Nat) (card : Option Nat) (pk : Bool) (N : Nat)
    (hn : 1 ≤ N)
    (hd : ∀ r ∈ db.dictionary_forms, ¬ r.base_form = remove_surrogates base)
    (hs : ∀ r ∈ db2.surface_forms,
        sfKey dfid (remove_surrogates surf) (remove_surrogates sread)
          (remove_surrogates (spos.getD "")) r = false) :
    ((iterate_dict_upsert base reading pos N db).dictionary_forms.filter
        (fun r => decide (r.base_form = remove_surrogates base))).map
      (fun r => r.frequency) = [N]
    ∧ ((iterate_surface_upsert dfid surf sread spos sent card pk N
          db2).surface_forms.filter
        (sfKey dfid (remove_surrogates surf) (remove_surrogates sread)
          (remove_surrogates (spos.getD "")))).map (fun r => r.frequency) = [N] := by
  obtain ⟨m, rfl⟩ : ∃ m, N = m + 1 := ⟨N - 1, by omega⟩
  constructor
  · rw [iterate_dict_upsert]
    have hstep := dict_step_miss db base reading pos hd
    have hres := iterate_dict_established base reading pos m
      (get_or_create_dictionary_form db base reading pos).2 db.dictionary_forms
      ⟨nextDictFormId db, remove_surrogates base, remove_surrogates reading,
        remove_surrogates pos, 1, false, none⟩
      hstep hd rfl (dict_id_fresh db)
    rw [hres]
    rw [filter_append_singleton _ _ _ (fun r hr => by simp [hd r hr]) (by simp)]
    simp [Nat.add_comm]
  · rw [iterate_surface_upsert]
    have hstep := surface_step_miss db2 dfid surf sread spos sent card pk hs
    obtain ⟨b, hres⟩ := iterate_surface_established dfid surf sread spos sent card pk m
      (add_surface_form db2 dfid surf sread spos sent card pk).2 db2.surface_forms
      ⟨nextSurfaceFormId db2, dfid, remove_surrogates surf, remove_surrogates sread,
        some (remove_surrogates (spos.getD "")), 1,
        pk && contains_kanji (remove_surrogates surf)⟩
      hstep hs (by simp [sfKey]) (surface_id_fresh db2)
    rw [hres]
    rw [filter_append_singleton _ _ _ hs (by simp [sfKey])]
    simp [Nat.add_comm]

/-- Witness for C5 with two upserts of a fresh base form and surface key on the
empty store. -/
theorem upsert_frequency_N_witness :
    1 ≤ 2
    ∧ (∀ r ∈ emptyDB.dictionary_forms, ¬ r.base_form = remove_surrogates "taberu")
    ∧ (∀ r ∈ emptyDB.surface_forms,
        sfKey 1 (remove_surrogates "tabeta") (remove_surrogates "tabeta")
          (remove_surrogates ((some "v" : Option String).getD "")) r = false)
    ∧ (((iterate_dict_upsert "taberu" "r" "v" 2 emptyDB).dictionary_forms.filter
          (fun r => decide (r.base_form = remove_surrogates "taberu"))).map
        (fun r => r.frequency) = [2]
      ∧ ((iterate_surface_upsert 1 "tabeta" "tabeta" (some "v") 7 none true 2
            emptyDB).surface_forms.filter
          (sfKey 1 (remove_surrogates "tabeta") (remove_surrogates "tabeta")
            (remove_surrogates ((some "v" : Option String).getD "")))).map
        (fun r => r.frequency) = [2]) :=
  ⟨by omega, by simp [emptyDB], by simp [emptyDB],
   upsert_frequency_N emptyDB emptyDB "taberu" "r" "v" 1 "tabeta" "tabeta"
     (some "v") 7 none true 2 (by omega) (by simp [emptyDB]) (by simp [emptyDB])⟩

/-- LEFT-JOIN continuation of `update_dictionary_form_rankings`' freq CTE for
one surface form: each row keeps the surface form's `frequency` and the joined
text's `studying` flag; a stage with no match NULL-extends (`none`). -/
def sfLinkRows (db : DB) (sf : SurfaceForm) : List (Option Nat × Option Bool) :=
  let links := db.surface_form_sentences.filter
    (fun l => decide (l.surface_form_id = sf.surface_form_id))
  if links = [] then [(some sf.frequency, none)]
  else links.flatMap (fun l =>
    let sens := db.sentences.filter (fun s => decide (s.sentence_id = l.sentence_id))
    if sens = [] then [(some sf.frequency, none)]
    else sens.flatMap (fun se =>
      let ts := db.texts.filter (fun t => decide (t.text_id = se.text_id))
      if ts = [] then [(some sf.frequency, none)]
      else ts.map (fun t => (some sf.frequency, some t.studying))))

/-- All LEFT-JOIN rows of the freq CTE for one dictionary form. -/
def dfJoinRows (db : DB) (df : DictForm) : List (Option Nat × Option Bool) :=
  let sfs := db.surface_forms.filter
    (fun sf => decide (sf.dict_form_id = df.dict_form_id))
  if sfs = [] then [(none, none)]
  else sfs.flatMap (sfLinkRows db)

/-- The WHERE clause `t.studying = 1 OR t.studying IS NULL`. -/
def studyingOrNull (r : Option Nat × Option Bool) : Bool :=
  decide (r.2 = some true) || decide (r.2 = none)

/-- The freq CTE's entry for one dictionary form: `some total` (SUM of the
surviving rows' frequencies, with `IFNULL` turning an all-NULL sum into 0)
when at least one join row survives the WHERE clause; `none` when the WHERE
clause removes the form's whole group, so the form is absent from the ranking
pass. -/
def dfTotalFreq (db : DB) (df : DictForm) : Option Nat :=
  let surviving := (dfJoinRows db df).filter studyingOrNull
  if surviving = [] then none
  else some (surviving.foldl (fun a r => a + r.1.getD 0) 0)

/-- Stable insertion into a list sorted by descending total. -/
def insertDesc (x : Nat × Nat) : List (Nat × Nat) → List (Nat × Nat)
  | [] => [x]
  | y :: ys => if y.2 < x.2 then x :: y :: ys else y :: insertDesc x ys

/-- `ORDER BY total_freq DESC` as a stable insertion sort over the grouped
rows (SQLite's tie order among equal totals is unspecified; none of the
verified properties depends on it). -/
def sortDesc : List (Nat × Nat) → List (Nat × Nat)
  | [] => []
  | x :: xs => insertDesc x (sortDesc xs)

/-- The `(dict_form_id, rank)` assignments of the ranking pass: the freq CTE's
rows sorted by descending total, ranks 1.. in that order. -/
def rankedList (db : DB) : List (Nat × Nat) :=
  let freq := db.dictionary_forms.filterMap
    (fun df => (dfTotalFreq db df).map (fun t => (df.dict_form_id, t)))
  (sortDesc freq).enum.map (fun p => (p.2.1, p.1 + 1))

/-- `DatabaseManager.update_dictionary_form_rankings`: the sequential UPDATE
loop writing rank 1.. onto the forms appearing in the freq CTE. -/
def update_dictionary_form_rankings (db : DB) : DB :=
  { db with
    dictionary_forms :=
      (rankedList db).foldl (fun rows p =>
        rows.map (fun df =>
          if df.dict_form_id = p.1 then { df with ranking := some p.2 } else df))
        db.dictionary_forms }

/-- A store with one lemma whose single surface occurrence lies in a sentence
of a text with `studying = 0`, and a stale ranking of 5. -/
def c4DB : DB :=
  { emptyDB with
    dictionary_forms := [⟨1, "w", "", "", 3, false, some 5⟩]
    surface_forms := [⟨11, 1, "w", "", some "", 3, false⟩]
    surface_form_sentences := [⟨11, 201⟩]
    sentences := [⟨201, 101, "w", 0⟩]
    texts := [⟨101, "src", "book", 0, false⟩] }

/-- C4 (code bug): the WHERE clause `studying = 1 OR studying IS NULL` applied
after the LEFT JOIN drops every group row of a lemma occurring only in
non-studying texts, so the lemma is absent from the freq CTE and the UPDATE
loop never touches it — its stale rank 5 survives, although the function's own
comment promises such forms "still appear with total=0 (and get the worst
rank)". -/
theorem update_rankings_stale_rank :
    dfTotalFreq c4DB ⟨1, "w", "", "", 3, false, some 5⟩ = none
    ∧ rankedList c4DB = []
    ∧ (update_dictionary_form_rankings c4DB).dictionary_forms.map
        (fun df => df.ranking) = [some 5] := by
  decide

/-- `compute_average_comprehension_for_studying_texts` (main.py): average,
over the texts with `studying = 1`, of the percentage of each text's distinct
linked lemmas lying in the given known set; `(100, 0)` without studying
texts. -/
def compute_average_comprehension_for_studying_texts (db : DB)
    (known : Finset Nat) : ℚ × Nat :=
  let studying := (db.texts.filter (fun t => t.studying)).map (fun t => t.text_id)
  if studying = [] then (100, 0)
  else
    let total := studying.foldl (fun acc tid =>
      let forms := (textLinkedForms db tid).map (fun df => df.dict_form_id)
      if forms = [] then acc + 100
      else acc + ((forms.filter (fun f => decide (f ∈ known))).length : ℚ)
          / (forms.length : ℚ) * 100) 0
    (total / (studying.length : ℚ), studying.length)

/-- `compute_card_incremental_improvement` (main.py). -/
def compute_card_incremental_improvement (db : DB) (card_id : Nat)
    (known : Finset Nat) (baseline : ℚ) : ℚ :=
  let unknowns := get_unknown_dict_forms_from_card db card_id
  if unknowns = [] then 0
  else
    (compute_average_comprehension_for_studying_texts db
      (known ∪ unknowns.toFinset)).1 - baseline

/-- The known-lemma set read from the store (`known = 1` rows). -/
def knownSet (db : DB) : Finset Nat :=
  ((db.dictionary_forms.filter (fun df => df.known)).map
    (fun df => df.dict_form_id)).toFinset

/-- The candidate query of `predict_comprehension_increase_for_X_cards`:
cards of the deck joined to a sentence with at most one unknown form. -/
def predictCandidates (db : DB) (deck_id : Nat) : List Nat :=
  db.cards.flatMap (fun c =>
    if c.deck_id = deck_id then
      (db.sentences.filter (fun s =>
        decide (c.sentence_id = some s.sentence_id) &&
        decide (s.unknown_dictionary_form_count ≤ 1))).map (fun _ => c.card_id)
    else [])

/-- The greedy `for _ in range(X)` loop of the prediction: pick the card with
the strictly largest positive gain, learn its unknown lemmas, recompute the
average, and recurse on the remaining candidates. -/
def predictLoop (db : DB) : Nat → List Nat → Finset Nat → ℚ → ℚ
  | 0, _, _, current => current
  | x + 1, candidates, known, current =>
    let best := candidates.foldl (fun (acc : Option Nat × ℚ) cid =>
      let inc := compute_card_incremental_improvement db cid known current
      if acc.2 < inc then (some cid, inc) else acc) (none, 0)
    match best.1 with
    | none => current
    | some bc =>
      if bc = 0 then current
      else if best.2 ≤ 0 then current
      else
        let known2 := known ∪ (get_unknown_dict_forms_from_card db bc).toFinset
        predictLoop db x (candidates.erase bc) known2
          (compute_average_comprehension_for_studying_texts db known2).1

/-- `predict_comprehension_increase_for_X_cards` (main.py): `(0, 0)` when the
Words deck is missing (or its id is falsy) or no candidate exists, else the
final simulated average and its gain over the baseline. -/
def predict_comprehension_increase_for_X_cards (db : DB) (X : Nat) : ℚ × ℚ :=
  match db.decks.find? (fun d => decide (d.name = "Words")) with
  | none => (0, 0)
  | some deck =>
    if deck.deck_id = 0 then (0, 0)
    else
      let candidates := predictCandidates db deck.deck_id
      if candidates = [] then (0, 0)
      else
        let baseline := (compute_average_comprehension_for_studying_texts db
          (knownSet db)).1
        let final := predictLoop db X candidates (knownSet db) baseline
        (final, final - baseline)

/-- A store with one studying text and no Words deck: the baseline is 100. -/
def c6DB : DB := { emptyDB with texts := [⟨101, "t", "book", 0, true⟩] }

/-- C6 counterexample: with no Words deck the prediction at X = 0 returns
`(0, 0)`, not `(baseline, 0)` — here the baseline is 100. -/
theorem predict_zero_cards_cex :
    predict_comprehension_increase_for_X_cards c6DB 0 = (0, 0)
    ∧ (compute_average_comprehension_for_studying_texts c6DB (knownSet c6DB)).1
      = 100 := by
  constructor
  · rfl
  · show ((0 : ℚ) + 100) / ((1 : Nat) : ℚ) = 100
    norm_num

/-- C6 (amended): whenever the Words deck exists with a nonzero id and at
least one N+1 candidate card exists, the prediction with X = 0 returns exactly
`(baseline, 0)`, the baseline being the stored-flag average comprehension over
studying texts; in the degenerate cases it returns `(0, 0)`. -/
theorem predict_zero_cards_correct (db : DB) (deck : DeckRow)
    (hfind : db.decks.find? (fun d => decide (d.name = "Words")) = some deck)
    (hid : ¬ deck.deck_id = 0)
    (hcand : ¬ predictCandidates db deck.deck_id = []) :
    predict_comprehension_increase_for_X_cards db 0
      = ((compute_average_comprehension_for_studying_texts db (knownSet db)).1, 0) := by
  rw [predict_comprehension_increase_for_X_cards]
  simp only [hfind, if_neg hid, if_neg hcand]
  rw [predictLoop]
  rw [sub_self]

/-- Witness store for the amended C6: a Words deck, one candidate card, one
studying text. -/
def c6DB2 : DB :=
  { emptyDB with
    decks := [⟨1, "Words"⟩]
    cards := [⟨50, 1, some 201, false, false⟩]
    sentences := [⟨201, 101, "s", 0⟩]
    texts := [⟨101, "t", "book", 0, true⟩] }

/-- Witness for the amended C6 at the concrete store. -/
theorem predict_zero_cards_correct_witness :
    c6DB2.decks.find? (fun d => decide (d.name = "Words")) = some ⟨1, "Words"⟩
    ∧ ¬ (⟨1, "Words"⟩ : DeckRow).deck_id = 0
    ∧ ¬ predictCandidates c6DB2 (⟨1, "Words"⟩ : DeckRow).deck_id = []
    ∧ predict_comprehension_increase_for_X_cards c6DB2 0
      = ((compute_average_comprehension_for_studying_texts c6DB2 (knownSet c6DB2)).1, 0) :=
  ⟨by decide, by decide, by decide,
   predict_zero_cards_correct c6DB2 ⟨1, "Words"⟩ (by decide) (by decide) (by decide)⟩

/-- A sqlite connection as seen by `remove_path`: the committed store and the
working (uncommitted) store of the open transaction. -/
def Conn := DB × DB

/-- One statement of the transaction: an uncommitted mutation, or the final
`commit` making the working store durable. -/
inductive DbOp where
  | mutate : (DB → DB) → DbOp
  | commitOp : DbOp

/-- Executing one statement on the connection. -/
def applyOp : DB × DB → DbOp → DB × DB
  | (c, w), DbOp.mutate f => (c, f w)
  | (_, w), DbOp.commitOp => (w, w)

/-- Executing a statement sequence. -/
def runOps (s : DB × DB) (ops : List DbOp) : DB × DB := ops.foldl applyOp s

/-- The path test of `remove_path`'s media scan (`norm` stands for
`os.path.normpath` and `sep` for `os.sep`, both library functions): a source
matches by prefix, a plain path also by exact equality. -/
def mediaMatches (norm : String → String) (sep : String) (itemN : String)
    (isSource : Bool) (file_path : String) : Bool :=
  let nf := norm file_path
  let pref := itemN ++ (if itemN.endsWith sep then "" else sep)
  if isSource then nf.startsWith pref
  else decide (nf = itemN) || nf.startsWith pref

/-- The media ids `remove_path` collects for deletion. -/
def mediaIdsToDelete (norm : String → String) (sep : String) (db : DB)
    (itemN : String) (isSource : Bool) : List Nat :=
  (db.media.filter (fun m => mediaMatches norm sep itemN isSource m.file_path)).map
    (fun m => m.media_id)

/-- The derived video-subtitle text ids `remove_path` collects: for each
subtitle of each doomed media row, the first `texts` row with that source and
type (the set semantics of the Python code becomes `dedup`). -/
def textIdsToDelete (db : DB) (mids : List Nat) : List Nat :=
  (mids.flatMap (fun mid =>
    (db.subtitles.filter (fun sub => decide (sub.media_id = mid))).flatMap (fun sub =>
      match db.texts.find? (fun t =>
          decide (t.source = sub.subtitle_file) &&
          decide (t.ttype = "video_subtitle")) with
      | some t => [t.text_id]
      | none => []))).dedup

/-- `DELETE FROM texts WHERE text_id = ?` with the schema's `ON DELETE
CASCADE` chain: sentences of the text, their surface-form links, the cards and
kanji linkage rows referencing those sentences. -/
def deleteTextOp (tid : Nat) (db : DB) : DB :=
  let dead := (db.sentences.filter (fun s => decide (s.text_id = tid))).map
    (fun s => s.sentence_id)
  { db with
    texts := db.texts.filter (fun t => !decide (t.text_id = tid))
    sentences := db.sentences.filter (fun s => !decide (s.text_id = tid))
    surface_form_sentences := db.surface_form_sentences.filter
      (fun l => !decide (l.sentence_id ∈ dead))
    cards := db.cards.filter (fun c =>
      match c.sentence_id with
      | some sid => !decide (sid ∈ dead)
      | none => true)
    kanji_linkage := db.kanji_linkage.filter
      (fun l => !decide (l.sentence_id ∈ dead)) }

/-- `DELETE FROM media WHERE media_id = ?` with the subtitles cascade. -/
def deleteMediaOp (mid : Nat) (db : DB) : DB :=
  { db with
    media := db.media.filter (fun m => !decide (m.media_id = mid))
    subtitles := db.subtitles.filter (fun sub => !decide (sub.media_id = mid)) }

/-- `DELETE FROM sources WHERE source_id = ?`. -/
def deleteSourceOp (sid : Nat) (db : DB) : DB :=
  { db with sources := db.sources.filter (fun r => !decide (r.source_id = sid)) }

/-- Pruning of orphaned surface forms (`surface_form_id NOT IN surface_form_sentences`)
with the compound/kanji cascades of the schema. -/
def pruneSurfaceFormsOp (db : DB) : DB :=
  let keep := fun (sf : SurfaceForm) =>
    db.surface_form_sentences.any (fun l =>
      decide (l.surface_form_id = sf.surface_form_id))
  let kept := db.surface_forms.filter keep
  let keptCompound := db.compound_forms.filter (fun cp =>
    kept.any (fun sf => decide (sf.surface_form_id = cp.surface_form_id)))
  { db with
    surface_forms := kept
    compound_forms := keptCompound
    kanji_entries := db.kanji_entries.filter (fun k =>
      keptCompound.any (fun cp => decide (cp.compound_id = k.compound_id)))
    kanji_linkage := db.kanji_linkage.filter (fun l =>
      kept.any (fun sf => decide (sf.surface_form_id = l.surface_form_id))) }

/-- Pruning of dictionary forms with no remaining surface forms. -/
def pruneDictFormsOp (db : DB) : DB :=
  { db with
    dictionary_forms := db.dictionary_forms.filter (fun df =>
      db.surface_forms.any (fun sf => decide (sf.dict_form_id = df.dict_form_id))) }

/-- The `sources` row check of `remove_path`. -/
def removeSrcRow (norm : String → String) (db : DB) (item : String) :
    Option SourceRow :=
  db.sources.find? (fun r => decide (r.folder_path = norm item))

/-- The doomed media ids of one `remove_path` call. -/
def removeMids (norm : String → String) (sep : String) (db : DB)
    (item : String) : List Nat :=
  mediaIdsToDelete norm sep db (norm item) (removeSrcRow norm db item).isSome

/-- The doomed text ids of one `remove_path` call. -/
def removeTids (norm : String → String) (sep : String) (db : DB)
    (item : String) : List Nat :=
  textIdsToDelete db (removeMids norm sep db item)

/-- The uncommitted mutations of `remove_path`, in statement order. -/
def removePathMuts (norm : String → String) (sep : String) (db : DB)
    (item : String) : List (DB → DB) :=
  ((removeTids norm sep db item).map deleteTextOp)
  ++ ((removeMids norm sep db item).map deleteMediaOp)
  ++ (match removeSrcRow norm db item with
      | some r => [deleteSourceOp r.source_id]
      | none => [])
  ++ [pruneSurfaceFormsOp, pruneDictFormsOp]

/-- The statement sequence `remove_path` issues: its mutations, then the one
commit at the very end. -/
def removePathOps (norm : String → String) (sep : String) (db : DB)
    (item : String) : List DbOp :=
  ((removePathMuts norm sep db item).map DbOp.mutate) ++ [DbOp.commitOp]

/-- `DatabaseManager.remove_path`: `(false, unchanged store)` when nothing
matches and the path is no source, else run the statement sequence over the
connection and return the committed result. -/
def remove_path (norm : String → String) (sep : String) (db : DB)
    (item : String) : Bool × DB :=
  if removeMids norm sep db item = [] ∧ removeSrcRow norm db item = none then
    (false, db)
  else (true, (runOps (db, db) (removePathOps norm sep db item)).1)

/-- Sequential application of uncommitted mutations to the working store. -/
def applyList (L : List (DB → DB)) (db : DB) : DB :=
  L.foldl (fun d f => f d) db

/-- Mutations never touch the committed store. -/
lemma runOps_mutates (L : List (DB → DB)) :
    ∀ (c w : DB), runOps (c, w) (L.map DbOp.mutate) = (c, applyList L w) := by
  induction L with
  | nil => intro c w; rfl
  | cons f fs ih =>
    intro c w
    show runOps (c, f w) (fs.map DbOp.mutate) = _
    rw [ih]
    rfl

/-- The committed result of the full statement sequence is the working store
after all mutations. -/
lemma runOps_removePath (norm : String → String) (sep : String) (db : DB)
    (item : String) :
    (runOps (db, db) (removePathOps norm sep db item)).1
      = applyList (removePathMuts norm sep db item) db := by
  rw [removePathOps, runOps, List.foldl_append]
  rw [show List.foldl applyOp (db, db)
      ((removePathMuts norm sep db item).map DbOp.mutate)
      = (db, applyList (removePathMuts norm sep db item) db) from
    runOps_mutates _ db db]
  rfl

/-- Interrupting the sequence anywhere before its end leaves the committed
store untouched: the single commit is the last statement. -/
lemma removePath_prefix_committed (norm : String → String) (sep : String)
    (db : DB) (item : String) (k : Nat)
    (hk : k < (removePathOps norm sep db item).length) :
    (runOps (db, db) ((removePathOps norm sep db item).take k)).1 = db := by
  rw [removePathOps] at hk ⊢
  have hlen : k ≤ ((removePathMuts norm sep db item).map DbOp.mutate).length := by
    rw [List.length_append] at hk
    simpa using Nat.le_of_lt_succ (by simpa using hk)
  rw [List.take_append_of_le_length hlen, ← List.map_take, runOps_mutates]

/-- A projection respected by every mutation of a list is respected by their
composition. -/
lemma applyList_proj {γ : Type} (proj : DB → γ) :
    ∀ (L : List (DB → DB)) (db : DB),
      (∀ f ∈ L, ∀ d, proj (f d) = proj d) →
      proj (applyList L db) = proj db := by
  intro L
  induction L with
  | nil => intro db _; rfl
  | cons f fs ih =>
    intro db h
    show proj (applyList fs (f db)) = proj db
    rw [ih (f db) (fun g hg d => h g (List.mem_cons_of_mem f hg) d),
      h f (List.mem_cons_self f fs) db]

/-- The text rows surviving the text-deletion pass are precisely the rows of
texts not on the doomed list. -/
lemma deleteTexts_texts_mem (tids : List Nat) :
    ∀ (db : DB) (t : TextRow),
      t ∈ (applyList (tids.map deleteTextOp) db).texts
        ↔ t ∈ db.texts ∧ t.text_id ∉ tids := by
  induction tids with
  | nil => intro db t; simp [applyList]
  | cons a rest ih =>
    intro db t
    rw [List.map_cons]
    rw [show applyList (deleteTextOp a :: rest.map deleteTextOp) db
        = applyList (rest.map deleteTextOp) (deleteTextOp a db) from rfl]
    rw [ih]
    simp only [deleteTextOp, List.mem_filter, List.mem_cons, Bool.not_eq_eq_eq_not,
      Bool.not_true, decide_eq_false_iff_not]
    constructor
    · rintro ⟨⟨h1, h2⟩, h3⟩
      exact ⟨h1, fun h => h.elim h2 h3⟩
    · rintro ⟨h1, h2⟩
      exact ⟨⟨h1, fun h => h2 (Or.inl h)⟩, fun h => h2 (Or.inr h)⟩

/-- The sentence rows surviving the text-deletion pass are precisely the rows
of sentences whose text is not on the doomed list. -/
lemma deleteTexts_sentences_mem (tids : List Nat) :
    ∀ (db : DB) (s : SentenceRow),
      s ∈ (applyList (tids.map deleteTextOp) db).sentences
        ↔ s ∈ db.sentences ∧ s.text_id ∉ tids := by
  induction tids with
  | nil => intro db s; simp [applyList]
  | cons a rest ih =>
    intro db s
    rw [List.map_cons]
    rw [show applyList (deleteTextOp a :: rest.map deleteTextOp) db
        = applyList (rest.map deleteTextOp) (deleteTextOp a db) from rfl]
    rw [ih]
    simp only [deleteTextOp, List.mem_filter, List.mem_cons, Bool.not_eq_eq_eq_not,
      Bool.not_true, decide_eq_false_iff_not]
    constructor
    · rintro ⟨⟨h1, h2⟩, h3⟩
      exact ⟨h1, fun h => h.elim h2 h3⟩
    · rintro ⟨h1, h2⟩
      exact ⟨⟨h1, fun h => h2 (Or.inl h)⟩, fun h => h2 (Or.inr h)⟩

/-- The media rows surviving the media-deletion pass are precisely the rows
whose id is not on the doomed list. -/
lemma deleteMedia_media_mem (mids : List Nat) :
    ∀ (db : DB) (m : MediaRow),
      m ∈ (applyList (mids.map deleteMediaOp) db).media
        ↔ m ∈ db.media ∧ m.media_id ∉ mids := by
  induction mids with
  | nil => intro db m; simp [applyList]
  | cons a rest ih =>
    intro db m
    rw [List.map_cons]
    rw [show applyList (deleteMediaOp a :: rest.map deleteMediaOp) db
        = applyList (rest.map deleteMediaOp) (deleteMediaOp a db) from rfl]
    rw [ih]
    simp only [deleteMediaOp, List.mem_filter, List.mem_cons, Bool.not_eq_eq_eq_not,
      Bool.not_true, decide_eq_false_iff_not]
    constructor
    · rintro ⟨⟨h1, h2⟩, h3⟩
      exact ⟨h1, fun h => h.elim h2 h3⟩
    · rintro ⟨h1, h2⟩
      exact ⟨⟨h1, fun h => h2 (Or.inl h)⟩, fun h => h2 (Or.inr h)⟩

/-- The optional source-row deletion respects every projection the
source-table deletion leaves alone. -/
lemma applyList_srcDelete_proj {γ : Type} (proj : DB → γ)
    (h : ∀ i d, proj (deleteSourceOp i d) = proj d)
    (o : Option SourceRow) (d2 : DB) :
    proj (applyList (match o with
      | some r => [deleteSourceOp r.source_id]
      | none => []) d2) = proj d2 := by
  cases o with
  | none => rfl
  | some r => exact h r.source_id d2

/-- C8: `remove_path` never partially commits — interrupting its statement
sequence at any point before the final commit leaves the committed store
unchanged, and a `False` result keeps the store unchanged; on success the
committed store has lost the matching media rows, the derived subtitle texts
and their sentences, every remaining surface form still has a sentence link
and every remaining dictionary form still has a surface form. -/
theorem remove_path_correct (norm : String → String) (sep : String) (db : DB)
    (item : String) :
    (∀ k, k < (removePathOps norm sep db item).length →
        (runOps (db, db) ((removePathOps norm sep db item).take k)).1 = db)
    ∧ ((remove_path norm sep db item).1 = false →
        (remove_path norm sep db item).2 = db)
    ∧ ((remove_path norm sep db item).1 = true →
        (∀ sf ∈ (remove_path norm sep db item).2.surface_forms,
            (remove_path norm sep db item).2.surface_form_sentences.any
              (fun l => decide (l.surface_form_id = sf.surface_form_id)) = true)
        ∧ (∀ df ∈ (remove_path norm sep db item).2.dictionary_forms,
            (remove_path norm sep db item).2.surface_forms.any
              (fun sf => decide (sf.dict_form_id = df.dict_form_id)) = true)
        ∧ (∀ m ∈ (remove_path norm sep db item).2.media,
            mediaMatches norm sep (norm item) (removeSrcRow norm db item).isSome
              m.file_path = false)
        ∧ (∀ t ∈ (remove_path norm sep db item).2.texts,
            t.text_id ∉ removeTids norm sep db item)
        ∧ (∀ s ∈ (remove_path norm sep db item).2.sentences,
            s.text_id ∉ removeTids norm sep db item)) := by
  refine ⟨fun k hk => removePath_prefix_committed norm sep db item k hk, ?_, ?_⟩
  · rw [remove_path]
    split_ifs with h
    · intro _; rfl
    · intro hfalse; simp at hfalse
  · rw [remove_path]
    split_ifs with h
    · intro htrue; simp at htrue
    · intro _
      have hfinal : (runOps (db, db) (removePathOps norm sep db item)).1
          = pruneDictFormsOp (pruneSurfaceFormsOp
              (applyList (match removeSrcRow norm db item with
                  | some r => [deleteSourceOp r.source_id]
                  | none => [])
                (applyList ((removeMids norm sep db item).map deleteMediaOp)
                  (applyList ((removeTids norm sep db item).map deleteTextOp) db)))) := by
        rw [runOps_removePath]
        rw [show removePathMuts norm sep db item
            = ((((removeTids norm sep db item).map deleteTextOp)
              ++ ((removeMids norm sep db item).map deleteMediaOp))
              ++ (match removeSrcRow norm db item with
                  | some r => [deleteSourceOp r.source_id]
                  | none => []))
              ++ [pruneSurfaceFormsOp, pruneDictFormsOp] from rfl]
        rw [applyList, List.foldl_append, List.foldl_append, List.foldl_append]
        rfl
      set W1 := applyList ((removeTids norm sep db item).map deleteTextOp) db with hW1
      set W2 := applyList ((removeMids norm sep db item).map deleteMediaOp) W1 with hW2
      set W3 := applyList (match removeSrcRow norm db item with
          | some r => [deleteSourceOp r.source_id]
          | none => []) W2 with hW3
      refine ⟨?_, ?_, ?_, ?_, ?_⟩
      · intro sf hsf
        rw [hfinal] at hsf ⊢
        have hkeep := (List.mem_filter.mp
          (show sf ∈ W3.surface_forms.filter (fun sf =>
              W3.surface_form_sentences.any (fun l =>
                decide (l.surface_form_id = sf.surface_form_id))) from hsf)).2
        exact hkeep
      · intro df hdf
        rw [hfinal] at hdf ⊢
        exact (List.mem_filter.mp
          (show df ∈ (pruneSurfaceFormsOp W3).dictionary_forms.filter (fun df =>
              (pruneSurfaceFormsOp W3).surface_forms.any (fun sf =>
                decide (sf.dict_form_id = df.dict_form_id))) from hdf)).2
      · intro m hm
        rw [hfinal] at hm
        have e2 : W3.media = W2.media :=
          applyList_srcDelete_proj (fun d => d.media) (fun i d => rfl) _ _
        have hm2 : m ∈ W2.media := by
          rw [← e2]
          exact hm
        have hmem := (deleteMedia_media_mem _ _ _).mp hm2
        have hT_media : W1.media = db.media := by
          rw [hW1]
          apply applyList_proj
          intro f hf d
          obtain ⟨t, _, rfl⟩ := List.mem_map.mp hf
          rfl
        have hmdb : m ∈ db.media := hT_media ▸ hmem.1
        cases hmatch : mediaMatches norm sep (norm item)
            (removeSrcRow norm db item).isSome m.file_path with
        | false => rfl
        | true =>
          exact absurd (by
            rw [removeMids, mediaIdsToDelete]
            exact List.mem_map.mpr ⟨m, List.mem_filter.mpr ⟨hmdb, hmatch⟩, rfl⟩)
            hmem.2
      · intro t ht
        rw [hfinal] at ht
        have e2 : W3.texts = W2.texts :=
          applyList_srcDelete_proj (fun d => d.texts) (fun i d => rfl) _ _
        have e3 : W2.texts = W1.texts := by
          rw [hW2]
          apply applyList_proj
          intro f hf d
          obtain ⟨x, _, rfl⟩ := List.mem_map.mp hf
          rfl
        have ht2 : t ∈ W1.texts := by
          rw [← e3, ← e2]
          exact ht
        exact ((deleteTexts_texts_mem _ _ _).mp ht2).2
      · intro s hs
        rw [hfinal] at hs
        have e2 : W3.sentences = W2.sentences :=
          applyList_srcDelete_proj (fun d => d.sentences) (fun i d => rfl) _ _
        have e3 : W2.sentences = W1.sentences := by
          rw [hW2]
          apply applyList_proj
          intro f hf d
          obtain ⟨x, _, rfl⟩ := List.mem_map.mp hf
          rfl
        have hs2 : s ∈ W1.sentences := by
          rw [← e3, ← e2]
          exact hs
        exact ((deleteTexts_sentences_mem _ _ _).mp hs2).2

/-- A store with one media file, its subtitle text, one sentence and one
linked lemma, for exercising `remove_path` concretely. -/
def c8DB : DB :=
  { emptyDB with
    dictionary_forms := [⟨1000, "w", "", "", 1, false, none⟩]
    surface_forms := [⟨100, 1000, "w", "", some "", 1, false⟩]
    surface_form_sentences := [⟨100, 10⟩]
    sentences := [⟨10, 1, "w", 0⟩]
    texts := [⟨1, "x.srt", "video_subtitle", 0, false⟩]
    media := [⟨7, "/a/x.mkv", "video"⟩]
    subtitles := [⟨7, "x.srt"⟩] }

/-- Witness for C8: on the concrete store the interrupted run commits nothing
and the successful run leaves no matching media row. -/
theorem remove_path_correct_witness :
    (0 < (removePathOps (fun s => s) "/" c8DB "/a/x.mkv").length
      ∧ (runOps (c8DB, c8DB)
          ((removePathOps (fun s => s) "/" c8DB "/a/x.mkv").take 0)).1 = c8DB)
    ∧ ((remove_path (fun s => s) "/" c8DB "/a/x.mkv").1 = true
      ∧ (∀ m ∈ (remove_path (fun s => s) "/" c8DB "/a/x.mkv").2.media,
          mediaMatches (fun s => s) "/" ((fun (s : String) => s) "/a/x.mkv")
            (removeSrcRow (fun s => s) c8DB "/a/x.mkv").isSome m.file_path
            = false)) :=
  ⟨⟨by decide, (remove_path_correct (fun s => s) "/" c8DB "/a/x.mkv").1 0 (by decide)⟩,
   ⟨by decide,
    ((remove_path_correct (fun s => s) "/" c8DB "/a/x.mkv").2.2 (by decide)).2.2.1⟩⟩

end CSR
